import Mathlib

/-!
Shallow embedding of the MPG Ranch NFC detector of the Vesper repository
(`vesper/mpg_ranch/nfc_detector_0_0/detector.py`).

The detector consumes an audio sample stream through repeated `detect`
calls, buffers the samples, processes them in fixed-size chunks, slices
each (possibly resampled) chunk into hopped analysis records, scores each
record with an external classifier, finds score peaks per threshold, and
reports validated clips `(start_index, length, threshold)` to a listener.

Modelling choices:
* samples and scores are rationals (the Python code uses floats; exact
  rational arithmetic stands in for them);
* the resampler (`resampy.resample`) and the classifier scorer
  (`score_dataset_examples` over a spectrogram dataset) are external
  collaborators; they are parameters of the model: a resampling function
  on sample lists and a pure per-record score function, as the spec's
  collaborator contracts require;
* the listener is modelled by accumulating the `process_clip` calls in
  emission order and counting `complete_processing` calls;
* Python exceptions (`ValueError` from `_get_num_analysis_records`, the
  `TypeError` from taking `len(None)` when `complete_detection` runs
  before any `detect` call) are modelled as `Option String` error
  results that abort the run;
* `logging.warning` calls are modelled by a warning counter;
* the score-file debugging output is statically disabled in the source
  (`_SCORE_OUTPUT_ENABLED = False`) and is therefore omitted.
-/

namespace Vesper

attribute [local semireducible] Rat.mul Rat.add Rat.sub Rat.inv
  Rat.ofScientific

/-- Python 3 built-in `round` on a rational: round half to even. -/
def pyRound (q : ℚ) : ℤ :=
  if Int.fract q < 1/2 then ⌊q⌋
  else if 1/2 < Int.fract q then ⌊q⌋ + 1
  else if ⌊q⌋ % 2 = 0 then ⌊q⌋ else ⌊q⌋ + 1

/-- Modelled from the spec: `vesper.util.signal_utils.seconds_to_frames`
is not under `src/`; per the configuration section durations are
converted to sample counts at a given rate, i.e. `round(duration * rate)`. -/
def secondsToFrames (duration rate : ℚ) : ℤ :=
  pyRound (duration * rate)

/-- Modelled from the spec: `vesper.util.signal_utils.get_duration` is not
under `src/`; it is the inverse conversion, from a sample count at a given
rate back to a duration in seconds. -/
def getDuration (numSamples : ℤ) (rate : ℚ) : ℚ :=
  (numSamples : ℚ) / rate

/-- Port of `_get_num_analysis_records` (detector.py lines 355-375), with
the validation split from the count so that the valid-branch value is a
total function. `0` windows when `numSamples < recordSize`, else
`(numSamples - overlap) // hopSize` with `overlap = recordSize - hopSize`. -/
def numRecordsVal (numSamples : ℕ) (recordSize hopSize : ℤ) : ℕ :=
  if (numSamples : ℤ) < recordSize then 0
  else ((numSamples : ℤ) - (recordSize - hopSize)).toNat / hopSize.toNat

/-- Port of `_get_num_analysis_records`: the three `ValueError` checks, in
source order, then the record count. -/
def getNumAnalysisRecords (numSamples : ℕ) (recordSize hopSize : ℤ) :
    Except String ℕ :=
  if recordSize ≤ 0 then .error "Record size must be positive."
  else if hopSize ≤ 0 then .error "Hop size must be positive."
  else if recordSize < hopSize then .error "Hop size must not exceed record size."
  else .ok (numRecordsVal numSamples recordSize hopSize)

/-- Port of `_get_analysis_records` (valid-parameter branch): record `v` is
`samples[v*hop : v*hop + record]`, realized in the source as a strided view. -/
def analysisRecords (samples : List ℚ) (recordSize hopSize : ℤ) :
    List (List ℚ) :=
  (List.range (numRecordsVal samples.length recordSize hopSize)).map
    (fun v => ((samples.drop (v * hopSize.toNat)).take recordSize.toNat))

/-- An emitted clip: the two arguments of `listener.process_clip` plus the
threshold it was detected at. -/
structure Clip where
  startIndex : ℤ
  length : ℤ
  threshold : ℚ
deriving DecidableEq, Repr

/-- Configuration and collaborator state of a `_Detector` instance after
`__init__`: the derived sizes the instance stores, plus the two external
collaborators (resampler, per-record scorer). -/
structure DetectorParams where
  inputSampleRate : ℚ
  classifierSampleRate : ℚ
  inputChunkSize : ℤ
  thresholds : List ℚ
  minSeparation : Option ℚ
  clipStartOffset : ℤ
  clipLength : ℤ
  classifierWaveformLength : ℤ
  hopSize : ℤ
  resample : List ℚ → List ℚ
  score : List ℚ → ℚ

/-- The mutable per-stream state of a `_Detector` other than the buffer:
`_input_chunk_start_index`, the clips passed to the listener so far (in
emission order) and the number of warnings logged. -/
structure CoreState where
  inputChunkStartIndex : ℕ
  emitted : List Clip
  warnings : ℕ
deriving DecidableEq, Repr

/-- Full detector state: `none` buffer models `_input_buffer = None`
(before the first `detect` call); `completes` counts the listener's
`complete_processing` calls. -/
structure DState where
  buffer : Option (List ℚ)
  core : CoreState
  completes : ℕ
deriving DecidableEq, Repr

/-- Score of window `i`, with 0 out of range (all uses are in range). -/
def scoreAt (scores : List ℚ) (i : ℕ) : ℚ :=
  scores.getD i 0

/-- Modelled from the spec: `vesper.util.signal_utils.find_peaks` is not
under `src/`. Per §4.3 a candidate peak is an index whose score is at or
above the threshold and a local maximum, ties broken by taking the earlier
index (so a plateau contributes only its first index). -/
def isCandidate (scores : List ℚ) (threshold : ℚ) (i : ℕ) : Bool :=
  decide (threshold ≤ scoreAt scores i) &&
    (decide (i = 0) || decide (scoreAt scores (i - 1) < scoreAt scores i)) &&
    (decide (i = scores.length - 1) ||
      decide (scoreAt scores (i + 1) ≤ scoreAt scores i))

/-- Earliest highest-scoring index of a candidate list (ties keep the
earlier index). -/
def pickBest (scores : List ℚ) : List ℕ → Option ℕ
  | [] => none
  | c :: cs =>
    match pickBest scores cs with
    | none => some c
    | some b => if scoreAt scores c < scoreAt scores b then some b else some c

/-- Modelled from the spec: §4.3's separation rule — among candidates
closer than the minimum separation the higher score is kept (ties: earlier
index). Greedy selection by score priority; each accepted index suppresses
all remaining candidates strictly closer than `minSep`. The fuel is the
candidate count, which bounds the recursion depth. -/
def selectPeaks (scores : List ℚ) (minSep : ℚ) :
    ℕ → List ℕ → List ℕ
  | 0, _ => []
  | fuel + 1, cands =>
    match pickBest scores cands with
    | none => []
    | some b =>
      b :: selectPeaks scores minSep fuel
        (cands.filter (fun c =>
          decide (c ≠ b) && decide (minSep ≤ |(c : ℚ) - (b : ℚ)|)))

/-- Insert into an ascending list. -/
def insertAsc (x : ℕ) : List ℕ → List ℕ
  | [] => [x]
  | y :: ys => if x ≤ y then x :: y :: ys else y :: insertAsc x ys

/-- Insertion sort, ascending: §4.3 requires the accepted indices in
ascending order. -/
def sortAsc : List ℕ → List ℕ
  | [] => []
  | x :: xs => insertAsc x (sortAsc xs)

/-- Modelled from the spec: `find_peaks(scores, threshold, min_separation)`
per §4.3. With no separation constraint all candidates are returned (they
are already ascending); otherwise score-priority selection enforces the
separation and the result is sorted ascending. -/
def findPeaks (scores : List ℚ) (threshold : ℚ) (minSep : Option ℚ) :
    List ℕ :=
  let cands := (List.range scores.length).filter (isCandidate scores threshold)
  match minSep with
  | none => cands
  | some m => sortAsc (selectPeaks scores m cands.length cands)

/-- Port of `_Detector._find_peaks` (lines 242-261): the configured
minimum separation in seconds is divided by the hop duration to give a
separation in hops, and passed to `find_peaks`. -/
def detectorFindPeaks (p : DetectorParams) (scores : List ℚ)
    (threshold : ℚ) : List ℕ :=
  findPeaks scores threshold
    (p.minSeparation.map
      (fun ms => ms / getDuration p.hopSize p.classifierSampleRate))

/-- The clip start index a peak resolves to in `_notify_listener_of_clips`
(lines 271-279): scale the peak index by the hop size, convert the
resulting classifier-rate index to the input rate via a duration, and add
the start offset. -/
def clipStartIndexOf (p : DetectorParams) (startOffset : ℤ) (pk : ℕ) : ℤ :=
  secondsToFrames (getDuration ((pk : ℤ) * p.hopSize) p.classifierSampleRate)
    p.inputSampleRate + startOffset

/-- The per-peak clip decision of `_notify_listener_of_clips` (lines
271-305): reject (`none`) when the clip starts before the stream start or
ends past the current chunk end, else emit the clip. -/
def clipFromPeak (p : DetectorParams) (startOffset chunkEnd : ℤ)
    (threshold : ℚ) (pk : ℕ) : Option Clip :=
  if clipStartIndexOf p startOffset pk < 0 then none
  else if chunkEnd < clipStartIndexOf p startOffset pk + p.clipLength then none
  else some ⟨clipStartIndexOf p startOffset pk, p.clipLength, threshold⟩

/-- One iteration of the loop of `_notify_listener_of_clips`: a rejected
clip logs a warning (both rejection branches), an accepted clip is passed
to `listener.process_clip`. -/
def notifyStep (p : DetectorParams) (startOffset chunkEnd : ℤ)
    (threshold : ℚ) (core : CoreState) (pk : ℕ) : CoreState :=
  match clipFromPeak p startOffset chunkEnd threshold pk with
  | none => { core with warnings := core.warnings + 1 }
  | some c => { core with emitted := core.emitted ++ [c] }

/-- Port of `_Detector._notify_listener_of_clips` (lines 264-305).
`start_offset = _input_chunk_start_index + _clip_start_offset` and
`chunk_end_index = _input_chunk_start_index + input_length` are loop
constants in the source. -/
def notifyListenerOfClips (p : DetectorParams) (peaks : List ℕ)
    (inputLength : ℕ) (threshold : ℚ) (core : CoreState) : CoreState :=
  peaks.foldl
    (notifyStep p ((core.inputChunkStartIndex : ℤ) + p.clipStartOffset)
      ((core.inputChunkStartIndex : ℤ) + (inputLength : ℤ)) threshold)
    core

/-- The resampling step of `_process_input_chunk` (lines 208-212): resample
only when the classifier rate differs from the input rate. -/
def effectiveSamples (p : DetectorParams) (chunk : List ℚ) : List ℚ :=
  if p.classifierSampleRate ≠ p.inputSampleRate then p.resample chunk
  else chunk

/-- The scores of one chunk: one score per analysis record, in order. -/
def chunkScores (p : DetectorParams) (chunk : List ℚ) : List ℚ :=
  (analysisRecords (effectiveSamples p chunk) p.classifierWaveformLength
    p.hopSize).map p.score

/-- The pure part of `_process_input_chunk` (lines 204-239), after the
window-parameter validation has succeeded: per threshold (in order), find
peaks and notify the listener; finally advance
`_input_chunk_start_index` by the chunk's input length. -/
def chunkStepCore (p : DetectorParams) (chunk : List ℚ)
    (core : CoreState) : CoreState :=
  p.thresholds.foldl
    (fun c t =>
      notifyListenerOfClips p (detectorFindPeaks p (chunkScores p chunk) t)
        chunk.length t c)
    core

def chunkStep (p : DetectorParams) (chunk : List ℚ) (core : CoreState) :
    CoreState :=
  { chunkStepCore p chunk core with
      inputChunkStartIndex :=
        (chunkStepCore p chunk core).inputChunkStartIndex + chunk.length }

/-- Port of `_Detector._process_input_chunk`: the `ValueError` raised by
`_get_num_analysis_records` (via `_get_analysis_records`) propagates;
otherwise the chunk is processed. -/
def processInputChunk (p : DetectorParams) (chunk : List ℚ)
    (core : CoreState) : Except String CoreState :=
  match getNumAnalysisRecords (effectiveSamples p chunk).length
      p.classifierWaveformLength p.hopSize with
  | .error e => .error e
  | .ok _ => .ok (chunkStep p chunk core)

/-- The `while len(buffer) >= chunk_size` loop of `_process_input_chunks`
(lines 193-195): read one chunk off the front of the buffer and process
it. `SampleBuffer.read` consumes the samples before processing, so on an
error the chunk is already gone from the buffer. The fuel argument is the
buffer length at entry; each iteration consumes at least one sample, so
the fuel never runs out (the loop does not terminate in Python when the
chunk size is not positive, which the guard's first conjunct excludes). -/
def drainAux (p : DetectorParams) :
    ℕ → List ℚ → CoreState → List ℚ × CoreState × Option String
  | 0, b, core => (b, core, none)
  | fuel + 1, b, core =>
    if 0 < p.inputChunkSize ∧ p.inputChunkSize ≤ (b.length : ℤ) then
      match processInputChunk p (b.take p.inputChunkSize.toNat) core with
      | .error e => (b.drop p.inputChunkSize.toNat, core, some e)
      | .ok core2 => drainAux p fuel (b.drop p.inputChunkSize.toNat) core2
    else (b, core, none)

/-- The whole-chunk phase of `_process_input_chunks`. -/
def drainFullChunks (p : DetectorParams) (b : List ℚ) (core : CoreState) :
    List ℚ × CoreState × Option String :=
  drainAux p b.length b core

/-- Port of `_Detector._process_input_chunks` (lines 189-201): drain the
full chunks; when `process_all_samples` is set and samples remain, read
them all and process them as one final, differently sized chunk. A `none`
buffer models `_input_buffer = None`, on which `len` raises `TypeError`. -/
def processInputChunks (p : DetectorParams) (processAll : Bool)
    (st : DState) : DState × Option String :=
  match st.buffer with
  | none => (st, some "TypeError: object of type NoneType has no len()")
  | some b =>
    match drainFullChunks p b st.core with
    | (b2, core2, some e) =>
      ({ buffer := some b2, core := core2, completes := st.completes }, some e)
    | (b2, core2, none) =>
      if processAll && !b2.isEmpty then
        match processInputChunk p b2 core2 with
        | .error e =>
          ({ buffer := some [], core := core2, completes := st.completes },
            some e)
        | .ok core3 =>
          ({ buffer := some [], core := core3, completes := st.completes },
            none)
      else ({ buffer := some b2, core := core2, completes := st.completes },
        none)

/-- Port of `_Detector.detect` (lines 179-186): create the buffer on the
first call, append the samples, and process the available full chunks. -/
def detect (p : DetectorParams) (samples : List ℚ) (st : DState) :
    DState × Option String :=
  processInputChunks p false
    { st with buffer := some (st.buffer.getD [] ++ samples) }

/-- Port of `_Detector.complete_detection` (lines 308-320): process all
remaining samples, then call the listener's `complete_processing` hook.
An exception in `_process_input_chunks` propagates before the hook runs. -/
def completeDetection (p : DetectorParams) (st : DState) :
    DState × Option String :=
  match processInputChunks p true st with
  | (st2, some e) => (st2, some e)
  | (st2, none) => ({ st2 with completes := st2.completes + 1 }, none)

/-- A fresh `_Detector`: no buffer, chunk start index 0, nothing emitted. -/
def initState : DState :=
  { buffer := none
    core := { inputChunkStartIndex := 0, emitted := [], warnings := 0 }
    completes := 0 }

/-- A sequence of `detect` calls, stopping at the first error (a Python
exception would abort the driving loop). -/
def foldDetect (p : DetectorParams) (calls : List (List ℚ))
    (st : DState) : DState × Option String :=
  calls.foldl
    (fun acc samples =>
      match acc with
      | (st2, none) => detect p samples st2
      | r => r)
    (st, none)

/-- A full detection session: the `detect` calls, then
`complete_detection`, from a fresh detector. -/
def runDetector (p : DetectorParams) (calls : List (List ℚ)) :
    DState × Option String :=
  match foldDetect p calls initState with
  | (st, none) => completeDetection p st
  | r => r

/-- Port of `_Detector._get_thresholds`: the union of the configured
threshold and the extra thresholds, deduplicated and sorted ascending. -/
def getThresholds (threshold : ℚ) (extra : Option (List ℚ)) : List ℚ :=
  ((threshold :: extra.getD []).dedup).mergeSort (fun a b => decide (a ≤ b))

/-- The detector settings a `_Detector` is constructed from
(`_TSEEP_SETTINGS` / `_THRUSH_SETTINGS` fields used by `__init__`). -/
structure DetectorSettings where
  inputChunkSize : ℚ
  hopSize : ℚ
  threshold : ℚ
  minSeparation : Option ℚ
  initialClipPadding : ℚ
  clipDuration : ℚ

/-- The classifier settings loaded in `__init__` (the fields used:
`waveform_sample_rate`, `waveform_duration`). -/
structure ClassifierSettings where
  waveformSampleRate : ℚ
  waveformDuration : ℚ

/-- Port of `_Detector.__init__` (lines 87-126): derive the sizes the
instance stores. Construction performs no validation and cannot fail. -/
def mkDetector (s : DetectorSettings) (cs : ClassifierSettings)
    (inputSampleRate : ℚ) (resample : List ℚ → List ℚ)
    (score : List ℚ → ℚ) (extraThresholds : Option (List ℚ)) :
    DetectorParams :=
  { inputSampleRate := inputSampleRate
    classifierSampleRate := cs.waveformSampleRate
    inputChunkSize := secondsToFrames s.inputChunkSize inputSampleRate
    thresholds := getThresholds s.threshold extraThresholds
    minSeparation := s.minSeparation
    clipStartOffset := -secondsToFrames s.initialClipPadding inputSampleRate
    clipLength := secondsToFrames s.clipDuration inputSampleRate
    classifierWaveformLength :=
      secondsToFrames cs.waveformDuration cs.waveformSampleRate
    hopSize :=
      secondsToFrames (s.hopSize / 100 * cs.waveformDuration)
        cs.waveformSampleRate
    resample := resample
    score := score }

/-- Every clip a detector state holds satisfies the §3 invariant with
respect to the state's own chunk start index. -/
def BoundedEmits (core : CoreState) : Prop :=
  ∀ c ∈ core.emitted,
    0 ≤ c.startIndex ∧
      c.startIndex + c.length ≤ (core.inputChunkStartIndex : ℤ)

/-- Sample count currently buffered (0 both for an empty buffer and for
the not-yet-created buffer, whose `len` raises in Python). -/
def bufLen (st : DState) : ℕ :=
  (st.buffer.getD []).length

/-- A session driven by one single `detect` call carrying the whole
stream: the canonical form every fragmentation is compared against. -/
def runFromFlat (p : DetectorParams) (s : List ℚ) : DState × Option String :=
  match detect p s initState with
  | (st, none) => completeDetection p st
  | r => r

/-- The validity condition `_get_num_analysis_records` enforces on the
derived record and hop sizes. -/
def ValidWindowing (p : DetectorParams) : Prop :=
  0 < p.hopSize ∧ p.hopSize ≤ p.classifierWaveformLength

/-- Every chunk the detector could form out of a stream of total length
`T` turns into a sample array shorter than one analysis record. -/
def ShortFor (p : DetectorParams) (T : ℕ) : Prop :=
  ∀ chunk : List ℚ, chunk.length ≤ T →
    ((effectiveSamples p chunk).length : ℤ) < p.classifierWaveformLength

/-- A concrete detector with equal input and classifier rates, chunk size
10, one-sample records and hop, threshold 1/2, clip length 1, and a
scorer that marks records equal to `[7]`. Used to exercise the claims on
explicit inputs. -/
def simpleParams : DetectorParams :=
  { inputSampleRate := 1
    classifierSampleRate := 1
    inputChunkSize := 10
    thresholds := [1/2]
    minSeparation := none
    clipStartOffset := 0
    clipLength := 1
    classifierWaveformLength := 1
    hopSize := 1
    resample := id
    score := fun w => if w = [7] then 1 else 0 }

/-- A concrete detector with chunk size 4 whose scorer never fires; its
threshold is unreachable, so it emits nothing and only moves the chunk
start index. -/
def monoParams : DetectorParams :=
  { inputSampleRate := 1
    classifierSampleRate := 1
    inputChunkSize := 4
    thresholds := [2]
    minSeparation := none
    clipStartOffset := 0
    clipLength := 1
    classifierWaveformLength := 1
    hopSize := 1
    resample := id
    score := fun _ => 0 }

/-- A concrete detector with equal rates and record length 3, for the
short-input scenario. -/
def shortParams : DetectorParams :=
  { inputSampleRate := 1
    classifierSampleRate := 1
    inputChunkSize := 10
    thresholds := [9/10]
    minSeparation := none
    clipStartOffset := 0
    clipLength := 1
    classifierWaveformLength := 3
    hopSize := 1
    resample := id
    score := fun _ => 0 }

/-- A concrete detector whose classifier rate (10000) differs from its
input rate (2000), with hop 2, record 2, and a minimum separation of
27/20000 s. The resampler stands in for the external collaborator and
returns a fixed 26-sample array whose records 4 and 11 score 9/10. -/
def sepParams : DetectorParams :=
  { inputSampleRate := 2000
    classifierSampleRate := 10000
    inputChunkSize := 100
    thresholds := [1/2]
    minSeparation := some (27/20000)
    clipStartOffset := 0
    clipLength := 1
    classifierWaveformLength := 2
    hopSize := 2
    resample := fun _ =>
      [0, 0, 0, 0, 0, 0, 0, 0, 1, 1, 0, 0, 0,
        0, 0, 0, 0, 0, 0, 0, 0, 0, 1, 1, 0, 0]
    score := fun w => if w = [1, 1] then 9/10 else 0 }

/-- Settings whose hop percentage (200) makes the derived hop size twice
the record size: a malformed configuration. -/
def badSettings : DetectorSettings :=
  { inputChunkSize := 4
    hopSize := 200
    threshold := 9/10
    minSeparation := none
    initialClipPadding := 0
    clipDuration := 1 }

/-- A classifier-settings stub with unit rate and duration. -/
def unitClassifierSettings : ClassifierSettings :=
  { waveformSampleRate := 1
    waveformDuration := 1 }

/-- The scores used in the separation counterexample: spikes at window
indices 4 and 11. -/
def sepScores : List ℚ :=
  [0, 0, 0, 0, 9/10, 0, 0, 0, 0, 0, 0, 9/10, 0]

/-! ### Basic facts about the rounding conversions -/

theorem pyRound_sub_le (q : ℚ) : |(pyRound q : ℚ) - q| ≤ 1/2 := by
  have h0 : (0 : ℚ) ≤ Int.fract q := Int.fract_nonneg q
  have h1 : Int.fract q < 1 := Int.fract_lt_one q
  have hq : (⌊q⌋ : ℚ) = q - Int.fract q := by
    unfold Int.fract
    ring
  unfold pyRound
  split
  · rename_i h
    rw [abs_le]
    constructor <;> push_cast <;> linarith
  · split
    · rename_i h h2
      rw [abs_le]
      constructor <;> push_cast <;> linarith
    · rename_i h h2
      have hf : Int.fract q = 1/2 := le_antisymm (not_lt.mp h2) (not_lt.mp h)
      split
      · rw [abs_le]
        constructor <;> push_cast <;> linarith
      · rw [abs_le]
        constructor <;> push_cast <;> linarith

/-! ### Characterization of the listener-notification loop -/

theorem foldNotify_spec (p : DetectorParams) (off ce : ℤ) (t : ℚ)
    (peaks : List ℕ) (core : CoreState) :
    peaks.foldl (notifyStep p off ce t) core =
      { inputChunkStartIndex := core.inputChunkStartIndex
        emitted := core.emitted ++ peaks.filterMap (clipFromPeak p off ce t)
        warnings := core.warnings +
          peaks.countP (fun pk => (clipFromPeak p off ce t pk).isNone) } := by
  induction peaks generalizing core with
  | nil => simp
  | cons pk rest ih =>
    rw [List.foldl_cons, ih]
    unfold notifyStep
    cases h : clipFromPeak p off ce t pk with
    | none =>
      simp [List.filterMap_cons, h, List.countP_cons]
      omega
    | some c =>
      simp [List.filterMap_cons, h, List.countP_cons]

/-- The claim of §4.4: `_notify_listener_of_clips` emits exactly the
clips passing the two boundary checks (in peak order), counts one warning
per rejected peak, and leaves the chunk start index unchanged. -/
theorem notifyListenerOfClips_spec (p : DetectorParams) (peaks : List ℕ)
    (inputLength : ℕ) (t : ℚ) (core : CoreState) :
    notifyListenerOfClips p peaks inputLength t core =
      { inputChunkStartIndex := core.inputChunkStartIndex
        emitted := core.emitted ++ peaks.filterMap
          (clipFromPeak p ((core.inputChunkStartIndex : ℤ) + p.clipStartOffset)
            ((core.inputChunkStartIndex : ℤ) + (inputLength : ℤ)) t)
        warnings := core.warnings + peaks.countP
          (fun pk =>
            (clipFromPeak p
              ((core.inputChunkStartIndex : ℤ) + p.clipStartOffset)
              ((core.inputChunkStartIndex : ℤ) + (inputLength : ℤ)) t
              pk).isNone) } :=
  foldNotify_spec p _ _ t peaks core

theorem clipFromPeak_some (p : DetectorParams) {off ce : ℤ} {t : ℚ}
    {pk : ℕ} {c : Clip} (h : clipFromPeak p off ce t pk = some c) :
    0 ≤ c.startIndex ∧ c.startIndex + c.length ≤ ce ∧
      c.length = p.clipLength ∧ c.threshold = t ∧
      c.startIndex = clipStartIndexOf p off pk := by
  unfold clipFromPeak at h
  split at h
  · exact absurd h (by simp)
  · split at h
    · exact absurd h (by simp)
    · rename_i h1 h2
      cases h
      exact ⟨not_lt.mp h1, not_lt.mp h2, rfl, rfl, rfl⟩

theorem notify_start (p : DetectorParams) (peaks : List ℕ)
    (inputLength : ℕ) (t : ℚ) (core : CoreState) :
    (notifyListenerOfClips p peaks inputLength t core).inputChunkStartIndex
      = core.inputChunkStartIndex := by
  rw [notifyListenerOfClips_spec]

theorem notify_emitted_cases (p : DetectorParams) (peaks : List ℕ)
    (inputLength : ℕ) (t : ℚ) (core : CoreState) :
    ∀ c ∈ (notifyListenerOfClips p peaks inputLength t core).emitted,
      c ∈ core.emitted ∨
        (0 ≤ c.startIndex ∧
          c.startIndex + c.length ≤
            (core.inputChunkStartIndex : ℤ) + (inputLength : ℤ)) := by
  intro c hc
  rw [notifyListenerOfClips_spec] at hc
  rcases List.mem_append.mp hc with h | h
  · exact Or.inl h
  · right
    rcases List.mem_filterMap.mp h with ⟨pk, _, hpk⟩
    obtain ⟨h1, h2, -, -, -⟩ := clipFromPeak_some p hpk
    exact ⟨h1, h2⟩

theorem chunkStepCore_aux (p : DetectorParams) (chunk : List ℚ) :
    ∀ (ts : List ℚ) (core : CoreState),
      (ts.foldl
        (fun c t =>
          notifyListenerOfClips p (detectorFindPeaks p (chunkScores p chunk) t)
            chunk.length t c)
        core).inputChunkStartIndex = core.inputChunkStartIndex ∧
      (∀ c ∈ (ts.foldl
          (fun c t =>
            notifyListenerOfClips p
              (detectorFindPeaks p (chunkScores p chunk) t) chunk.length t c)
          core).emitted,
        c ∈ core.emitted ∨
          (0 ≤ c.startIndex ∧
            c.startIndex + c.length ≤
              (core.inputChunkStartIndex : ℤ) + (chunk.length : ℤ))) := by
  intro ts
  induction ts with
  | nil => exact fun core => ⟨rfl, fun c hc => Or.inl hc⟩
  | cons t rest ih =>
    intro core
    rw [List.foldl_cons]
    obtain ⟨ih1, ih2⟩ :=
      ih (notifyListenerOfClips p
        (detectorFindPeaks p (chunkScores p chunk) t) chunk.length t core)
    refine ⟨by rw [ih1, notify_start], ?_⟩
    intro c hc
    rcases ih2 c hc with h | h
    · rcases notify_emitted_cases p _ _ t core c h with h2 | h2
      · exact Or.inl h2
      · exact Or.inr h2
    · rw [notify_start] at h
      exact Or.inr h

theorem chunkStep_start (p : DetectorParams) (chunk : List ℚ)
    (core : CoreState) :
    (chunkStep p chunk core).inputChunkStartIndex
      = core.inputChunkStartIndex + chunk.length := by
  unfold chunkStep
  have := (chunkStepCore_aux p chunk p.thresholds core).1
  unfold chunkStepCore
  simpa using this

theorem chunkStep_emitted (p : DetectorParams) (chunk : List ℚ)
    (core : CoreState) :
    ∀ c ∈ (chunkStep p chunk core).emitted,
      c ∈ core.emitted ∨
        (0 ≤ c.startIndex ∧
          c.startIndex + c.length ≤
            (core.inputChunkStartIndex : ℤ) + (chunk.length : ℤ)) := by
  have := (chunkStepCore_aux p chunk p.thresholds core).2
  unfold chunkStep chunkStepCore
  simpa using this

theorem chunkStep_bounded (p : DetectorParams) (chunk : List ℚ)
    (core : CoreState) (h : BoundedEmits core) :
    BoundedEmits (chunkStep p chunk core) := by
  intro c hc
  rw [chunkStep_start]
  rcases chunkStep_emitted p chunk core c hc with h2 | h2
  · obtain ⟨h3, h4⟩ := h c h2
    refine ⟨h3, le_trans h4 ?_⟩
    push_cast
    linarith
  · refine ⟨h2.1, le_trans h2.2 ?_⟩
    push_cast
    linarith

/-! ### Facts about the chunk-draining loop -/

theorem processInputChunk_ok {p : DetectorParams} {chunk : List ℚ}
    {core core2 : CoreState}
    (h : processInputChunk p chunk core = .ok core2) :
    core2 = chunkStep p chunk core := by
  unfold processInputChunk at h
  split at h
  · exact absurd h (by simp)
  · cases h
    rfl

theorem drainAux_main (p : DetectorParams) :
    ∀ (fuel : ℕ) (b : List ℚ) (core : CoreState), b.length ≤ fuel →
      core.inputChunkStartIndex
          ≤ (drainAux p fuel b core).2.1.inputChunkStartIndex ∧
        (drainAux p fuel b core).2.1.inputChunkStartIndex
            + (drainAux p fuel b core).1.length
          ≤ core.inputChunkStartIndex + b.length ∧
        ((drainAux p fuel b core).2.2 = none →
          (drainAux p fuel b core).2.1.inputChunkStartIndex
              + (drainAux p fuel b core).1.length
            = core.inputChunkStartIndex + b.length) ∧
        ((drainAux p fuel b core).2.2 = none → 0 < p.inputChunkSize →
          ((drainAux p fuel b core).1.length : ℤ) < p.inputChunkSize) ∧
        (BoundedEmits core → BoundedEmits (drainAux p fuel b core).2.1) := by
  intro fuel
  induction fuel with
  | zero =>
    intro b core hb
    have hb0 : b = [] := List.length_eq_zero.mp (Nat.le_zero.mp hb)
    subst hb0
    refine ⟨le_refl _, by simp [drainAux], fun _ => by simp [drainAux],
      fun _ hC => ?_, fun h => by simpa [drainAux] using h⟩
    simpa [drainAux] using hC
  | succ fuel ih =>
    intro b core hb
    show _ ∧ _ ∧ _ ∧ _ ∧ _
    rw [drainAux]
    split
    · rename_i hg
      have hC1 : 1 ≤ p.inputChunkSize.toNat := by omega
      have hCb : p.inputChunkSize.toNat ≤ b.length := by
        have := hg.2
        omega
      cases hpc : processInputChunk p (b.take p.inputChunkSize.toNat) core with
      | error e =>
        dsimp only
        refine ⟨le_refl _, ?_, ?_, ?_, fun h => h⟩
        · simp only [List.length_drop]
          omega
        · intro h
          simp at h
        · intro h
          simp at h
      | ok core2 =>
        dsimp only
        have hstep := processInputChunk_ok hpc
        have hlen : (b.drop p.inputChunkSize.toNat).length ≤ fuel := by
          simp only [List.length_drop]
          omega
        have htake : (b.take p.inputChunkSize.toNat).length
            = p.inputChunkSize.toNat := by
          simp [hCb]
        have hstart : core2.inputChunkStartIndex
            = core.inputChunkStartIndex + p.inputChunkSize.toNat := by
          rw [hstep, chunkStep_start, htake]
        obtain ⟨i1, i2, i3, i4, i5⟩ :=
          ih (b.drop p.inputChunkSize.toNat) core2 hlen
        have hdlen : (b.drop p.inputChunkSize.toNat).length
            = b.length - p.inputChunkSize.toNat := by
          simp only [List.length_drop]
        refine ⟨?_, ?_, ?_, i4, ?_⟩
        · omega
        · rw [hdlen] at i2
          omega
        · intro he
          have := i3 he
          rw [hdlen] at this
          omega
        · intro h
          exact i5 (by rw [hstep]; exact chunkStep_bounded p _ core h)
    · rename_i hg
      dsimp only
      refine ⟨le_refl _, by omega, fun _ => rfl, fun _ hC => ?_, fun h => h⟩
      rw [not_and_or] at hg
      rcases hg with h | h
      · exact absurd hC h
      · have := not_le.mp h
        omega

theorem drainFullChunks_main (p : DetectorParams) (b : List ℚ)
    (core : CoreState) :
    core.inputChunkStartIndex
        ≤ (drainFullChunks p b core).2.1.inputChunkStartIndex ∧
      (drainFullChunks p b core).2.1.inputChunkStartIndex
          + (drainFullChunks p b core).1.length
        ≤ core.inputChunkStartIndex + b.length ∧
      ((drainFullChunks p b core).2.2 = none →
        (drainFullChunks p b core).2.1.inputChunkStartIndex
            + (drainFullChunks p b core).1.length
          = core.inputChunkStartIndex + b.length) ∧
      ((drainFullChunks p b core).2.2 = none → 0 < p.inputChunkSize →
        ((drainFullChunks p b core).1.length : ℤ) < p.inputChunkSize) ∧
      (BoundedEmits core → BoundedEmits (drainFullChunks p b core).2.1) :=
  drainAux_main p b.length b core (le_refl _)

/-! ### Facts about one `detect` / `complete_detection` call -/

theorem processInputChunks_main (p : DetectorParams) (processAll : Bool)
    (st : DState) :
    st.core.inputChunkStartIndex
        ≤ (processInputChunks p processAll st).1.core.inputChunkStartIndex ∧
      (processInputChunks p processAll st).1.core.inputChunkStartIndex
          + bufLen (processInputChunks p processAll st).1
        ≤ st.core.inputChunkStartIndex + bufLen st ∧
      ((processInputChunks p processAll st).2 = none → st.buffer ≠ none →
        (processInputChunks p processAll st).1.core.inputChunkStartIndex
            + bufLen (processInputChunks p processAll st).1
          = st.core.inputChunkStartIndex + bufLen st) ∧
      ((processInputChunks p processAll st).2 = none → st.buffer ≠ none →
        processAll = false → 0 < p.inputChunkSize →
        (bufLen (processInputChunks p processAll st).1 : ℤ)
          < p.inputChunkSize) ∧
      (BoundedEmits st.core →
        BoundedEmits (processInputChunks p processAll st).1.core) ∧
      (processInputChunks p processAll st).1.completes = st.completes ∧
      ((processInputChunks p processAll st).2 = none →
        (processInputChunks p processAll st).1.buffer ≠ none) := by
  unfold processInputChunks
  cases hbuf : st.buffer with
  | none =>
    dsimp only
    refine ⟨le_refl _, le_refl _, ?_, ?_, fun h => h, rfl, ?_⟩
    · intro _ h
      exact absurd rfl h
    · intro _ h
      exact absurd rfl h
    · intro h
      simp at h
  | some b =>
    dsimp only
    have hb : bufLen st = b.length := by
      unfold bufLen
      rw [hbuf]
      rfl
    obtain ⟨d1, d2, d3, d4, d5⟩ := drainFullChunks_main p b st.core
    rcases hdr : drainFullChunks p b st.core with ⟨b2, core2, err⟩
    rw [hdr] at d1 d2 d3 d4 d5
    dsimp only at d1 d2 d3 d4 d5
    cases err with
    | some e =>
      dsimp only
      have hbl : bufLen
          { buffer := some b2, core := core2, completes := st.completes }
          = b2.length := rfl
      refine ⟨d1, ?_, ?_, ?_, fun h => d5 h, rfl, ?_⟩
      · rw [hbl, hb]
        omega
      · intro h
        exact Option.noConfusion h
      · intro h
        exact Option.noConfusion h
      · intro h
        exact Option.noConfusion h
    | none =>
      dsimp only
      by_cases hpa : (processAll && !b2.isEmpty) = true
      · rw [if_pos hpa]
        cases hpc : processInputChunk p b2 core2 with
        | error e =>
          dsimp only
          have hbl : bufLen
              { buffer := some ([] : List ℚ), core := core2,
                completes := st.completes } = 0 := rfl
          refine ⟨d1, ?_, ?_, ?_, fun h => d5 h, rfl, ?_⟩
          · rw [hbl, hb]
            omega
          · intro h
            exact Option.noConfusion h
          · intro h
            exact Option.noConfusion h
          · intro h
            exact Option.noConfusion h
        | ok core3 =>
          dsimp only
          have hstep := processInputChunk_ok hpc
          have h3 : core3.inputChunkStartIndex
              = core2.inputChunkStartIndex + b2.length := by
            rw [hstep, chunkStep_start]
          have hb2 : BoundedEmits core2 → BoundedEmits core3 := by
            intro h
            rw [hstep]
            exact chunkStep_bounded p _ _ h
          have hbl : bufLen
              { buffer := some ([] : List ℚ), core := core3,
                completes := st.completes } = 0 := rfl
          refine ⟨by omega, ?_, ?_, ?_, fun h => hb2 (d5 h), rfl, ?_⟩
          · rw [hbl, hb]
            omega
          · intro _ _
            rw [hbl, hb]
            have := d3 rfl
            omega
          · intro _ _ hfa
            rw [Bool.and_eq_true] at hpa
            rw [hpa.1] at hfa
            cases hfa
          · intro _ h
            exact Option.noConfusion h
      · rw [if_neg hpa]
        dsimp only
        have hbl : bufLen
            { buffer := some b2, core := core2,
              completes := st.completes } = b2.length := rfl
        refine ⟨d1, ?_, ?_, ?_, fun h => d5 h, rfl, ?_⟩
        · rw [hbl, hb]
          omega
        · intro _ _
          rw [hbl, hb]
          have := d3 rfl
          omega
        · intro _ _ hfa hC
          rw [hbl]
          exact d4 rfl hC
        · intro _ h
          exact Option.noConfusion h

theorem detect_main (p : DetectorParams) (samples : List ℚ) (st : DState) :
    st.core.inputChunkStartIndex
        ≤ (detect p samples st).1.core.inputChunkStartIndex ∧
      (detect p samples st).1.core.inputChunkStartIndex
          + bufLen (detect p samples st).1
        ≤ st.core.inputChunkStartIndex + bufLen st + samples.length ∧
      ((detect p samples st).2 = none →
        (detect p samples st).1.core.inputChunkStartIndex
            + bufLen (detect p samples st).1
          = st.core.inputChunkStartIndex + bufLen st + samples.length) ∧
      ((detect p samples st).2 = none → 0 < p.inputChunkSize →
        (bufLen (detect p samples st).1 : ℤ) < p.inputChunkSize) ∧
      (BoundedEmits st.core → BoundedEmits (detect p samples st).1.core) ∧
      (detect p samples st).1.completes = st.completes ∧
      ((detect p samples st).2 = none →
        (detect p samples st).1.buffer ≠ none) := by
  unfold detect
  obtain ⟨m1, m2, m3, m4, m5, m6, m7⟩ :=
    processInputChunks_main p false
      { st with buffer := some (st.buffer.getD [] ++ samples) }
  have hbl : bufLen { st with buffer := some (st.buffer.getD [] ++ samples) }
      = bufLen st + samples.length := by
    unfold bufLen
    simp
  rw [hbl] at m2 m3
  dsimp only at m1 m2 m3
  refine ⟨m1, ?_, ?_, fun h hC => m4 h (by simp) rfl hC, m5, m6, m7⟩
  · omega
  · intro h
    have := m3 h (by simp)
    omega

theorem completeDetection_main (p : DetectorParams) (st : DState) :
    st.core.inputChunkStartIndex
        ≤ (completeDetection p st).1.core.inputChunkStartIndex ∧
      (completeDetection p st).1.core.inputChunkStartIndex
          + bufLen (completeDetection p st).1
        ≤ st.core.inputChunkStartIndex + bufLen st ∧
      (BoundedEmits st.core →
        BoundedEmits (completeDetection p st).1.core) ∧
      ((completeDetection p st).2 = none →
        (completeDetection p st).1.completes = st.completes + 1) ∧
      ((completeDetection p st).2 ≠ none →
        (completeDetection p st).1.completes = st.completes) := by
  unfold completeDetection
  obtain ⟨m1, m2, m3, m4, m5, m6, m7⟩ := processInputChunks_main p true st
  cases hpr : processInputChunks p true st with
  | mk st2 err =>
    rw [hpr] at m1 m2 m5 m6
    cases err with
    | some e =>
      dsimp only
      exact ⟨m1, m2, m5, fun h => by simp at h, fun _ => m6⟩
    | none =>
      dsimp only
      refine ⟨m1, m2, m5, fun _ => by rw [m6], fun h => absurd rfl h⟩

/-! ### Facts about a whole detection session -/

theorem foldDetect_err (p : DetectorParams) (cs : List (List ℚ))
    (st : DState) (e : String) :
    cs.foldl
      (fun acc samples =>
        match acc with
        | (st2, none) => detect p samples st2
        | r => r)
      (st, some e) = (st, some e) := by
  induction cs with
  | nil => rfl
  | cons c rest ih => exact ih

theorem foldDetect_cons (p : DetectorParams) (c : List ℚ)
    (cs : List (List ℚ)) (st : DState) :
    foldDetect p (c :: cs) st =
      match detect p c st with
      | (st2, none) => foldDetect p cs st2
      | r => r := by
  unfold foldDetect
  rw [List.foldl_cons]
  dsimp only
  rcases hd : detect p c st with ⟨st2, err⟩
  cases err with
  | none =>
    dsimp only
  | some e =>
    dsimp only
    exact foldDetect_err p cs st2 e

theorem foldDetect_main (p : DetectorParams) (calls : List (List ℚ)) :
    ∀ st : DState,
      st.core.inputChunkStartIndex
          ≤ (foldDetect p calls st).1.core.inputChunkStartIndex ∧
        (foldDetect p calls st).1.core.inputChunkStartIndex
            + bufLen (foldDetect p calls st).1
          ≤ st.core.inputChunkStartIndex + bufLen st
              + (calls.flatten).length ∧
        (BoundedEmits st.core →
          BoundedEmits (foldDetect p calls st).1.core) ∧
        (foldDetect p calls st).1.completes = st.completes := by
  induction calls with
  | nil =>
    intro st
    refine ⟨le_refl _, by simp [foldDetect], fun h => h, rfl⟩
  | cons c cs ih =>
    intro st
    rw [foldDetect_cons]
    obtain ⟨e1, e2, e3, e4, e5, e6, e7⟩ := detect_main p c st
    rcases hd : detect p c st with ⟨st2, err⟩
    rw [hd] at e1 e2 e3 e4 e5 e6 e7
    dsimp only at e1 e2 e3 e4 e5 e6 e7
    cases err with
    | some e =>
      dsimp only
      refine ⟨e1, ?_, e5, e6⟩
      simp only [List.flatten_cons, List.length_append]
      omega
    | none =>
      dsimp only
      obtain ⟨i1, i2, i3, i4⟩ := ih st2
      refine ⟨le_trans e1 i1, ?_, fun h => i3 (e5 h), by rw [i4, e6]⟩
      simp only [List.flatten_cons, List.length_append]
      omega

theorem initState_bounded : BoundedEmits initState.core := by
  intro c hc
  simp [initState] at hc

theorem runDetector_main (p : DetectorParams) (calls : List (List ℚ)) :
    BoundedEmits (runDetector p calls).1.core ∧
      (runDetector p calls).1.core.inputChunkStartIndex
        ≤ (calls.flatten).length ∧
      (runDetector p calls).1.completes ≤ 1 ∧
      ((runDetector p calls).2 = none →
        (runDetector p calls).1.completes = 1) := by
  unfold runDetector
  obtain ⟨f1, f2, f3, f4⟩ := foldDetect_main p calls initState
  have hinit : bufLen initState = 0 := rfl
  rcases hf : foldDetect p calls initState with ⟨st, err⟩
  rw [hf] at f1 f2 f3 f4
  dsimp only at f1 f2 f3 f4
  rw [hinit] at f2
  have hb : BoundedEmits st.core := f3 initState_bounded
  have h0 : initState.core.inputChunkStartIndex = 0 := rfl
  have h0c : initState.completes = 0 := rfl
  cases err with
  | some e =>
    dsimp only
    refine ⟨hb, by omega, by omega, ?_⟩
    intro h
    exact Option.noConfusion h
  | none =>
    dsimp only
    obtain ⟨c1, c2, c3, c4, c5⟩ := completeDetection_main p st
    refine ⟨c3 hb, by omega, ?_, ?_⟩
    · rcases hcd : (completeDetection p st).2 with _ | e
      · rw [c4 hcd, f4]
        omega
      · rw [c5 (by rw [hcd]; exact fun h => Option.noConfusion h), f4]
        omega
    · intro h
      rw [c4 h, f4]
      omega

/-! ### Fragmentation invariance machinery -/

theorem drainAux_fuel (p : DetectorParams) :
    ∀ (fuel1 fuel2 : ℕ) (b : List ℚ) (core : CoreState),
      b.length ≤ fuel1 → b.length ≤ fuel2 →
      drainAux p fuel1 b core = drainAux p fuel2 b core := by
  intro fuel1
  induction fuel1 with
  | zero =>
    intro fuel2 b core h1 h2
    have hb : b = [] := List.length_eq_zero.mp (Nat.le_zero.mp h1)
    subst hb
    cases fuel2 with
    | zero => rfl
    | succ k =>
      rw [drainAux, drainAux]
      rw [if_neg]
      intro hg
      have := hg.2
      simp at this
      omega
  | succ fuel ih =>
    intro fuel2 b core h1 h2
    cases fuel2 with
    | zero =>
      have hb : b = [] := List.length_eq_zero.mp (Nat.le_zero.mp h2)
      subst hb
      rw [drainAux, drainAux]
      rw [if_neg]
      intro hg
      have := hg.2
      simp at this
      omega
    | succ k =>
      rw [drainAux]
      conv_rhs => rw [drainAux]
      by_cases hg : 0 < p.inputChunkSize ∧ p.inputChunkSize ≤ (b.length : ℤ)
      · rw [if_pos hg, if_pos hg]
        cases hpc : processInputChunk p (b.take p.inputChunkSize.toNat) core with
        | error e => rfl
        | ok core2 =>
          dsimp only
          have hlen : (b.drop p.inputChunkSize.toNat).length
              = b.length - p.inputChunkSize.toNat := by
            simp only [List.length_drop]
          have hC1 : 1 ≤ p.inputChunkSize.toNat := by
            have := hg.1
            omega
          exact ih k (b.drop p.inputChunkSize.toNat) core2 (by omega) (by omega)
      · rw [if_neg hg, if_neg hg]

theorem drainFullChunks_step (p : DetectorParams) (b : List ℚ)
    (core : CoreState)
    (hg : 0 < p.inputChunkSize ∧ p.inputChunkSize ≤ (b.length : ℤ)) :
    drainFullChunks p b core =
      match processInputChunk p (b.take p.inputChunkSize.toNat) core with
      | .error e => (b.drop p.inputChunkSize.toNat, core, some e)
      | .ok core2 => drainFullChunks p (b.drop p.inputChunkSize.toNat) core2 := by
  have hC1 : 1 ≤ p.inputChunkSize.toNat := by
    have := hg.1
    omega
  have hCb : p.inputChunkSize.toNat ≤ b.length := by
    have := hg.2
    omega
  have hb1 : 1 ≤ b.length := le_trans hC1 hCb
  unfold drainFullChunks
  rcases hlen : b.length with _ | k
  · omega
  · rw [drainAux]
    rw [if_pos ?_]
    · cases hpc : processInputChunk p (b.take p.inputChunkSize.toNat) core with
      | error e => rfl
      | ok core2 =>
        dsimp only
        apply drainAux_fuel
        · simp only [List.length_drop]
          omega
        · exact le_refl _
    · exact hg

theorem drainFullChunks_stop (p : DetectorParams) (b : List ℚ)
    (core : CoreState)
    (hg : ¬(0 < p.inputChunkSize ∧ p.inputChunkSize ≤ (b.length : ℤ))) :
    drainFullChunks p b core = (b, core, none) := by
  unfold drainFullChunks
  rcases hlen : b.length with _ | k
  · have hb : b = [] := List.length_eq_zero.mp hlen
    subst hb
    rfl
  · rw [drainAux]
    rw [if_neg]
    exact hg

theorem drainFullChunks_append (p : DetectorParams) :
    ∀ (n : ℕ) (b extra : List ℚ) (core : CoreState), b.length ≤ n →
      drainFullChunks p (b ++ extra) core =
        match drainFullChunks p b core with
        | (b2, core2, none) => drainFullChunks p (b2 ++ extra) core2
        | (b2, core2, some e) => (b2 ++ extra, core2, some e) := by
  intro n
  induction n with
  | zero =>
    intro b extra core h
    have hb : b = [] := List.length_eq_zero.mp (Nat.le_zero.mp h)
    subst hb
    have h0 : drainFullChunks p [] core = ([], core, none) := rfl
    rw [h0]
  | succ n ih =>
    intro b extra core h
    by_cases hg : 0 < p.inputChunkSize ∧ p.inputChunkSize ≤ (b.length : ℤ)
    · have hC1 : 1 ≤ p.inputChunkSize.toNat := by
        have := hg.1
        omega
      have hCb : p.inputChunkSize.toNat ≤ b.length := by
        have := hg.2
        omega
      have hg2 : 0 < p.inputChunkSize
          ∧ p.inputChunkSize ≤ ((b ++ extra).length : ℤ) := by
        refine ⟨hg.1, ?_⟩
        simp only [List.length_append]
        have := hg.2
        push_cast
        omega
      rw [drainFullChunks_step p b core hg,
        drainFullChunks_step p (b ++ extra) core hg2,
        List.take_append_of_le_length hCb,
        List.drop_append_of_le_length hCb]
      cases hpc : processInputChunk p (b.take p.inputChunkSize.toNat) core with
      | error e => rfl
      | ok core2 =>
        dsimp only
        have hlen : (b.drop p.inputChunkSize.toNat).length ≤ n := by
          simp only [List.length_drop]
          omega
        exact ih (b.drop p.inputChunkSize.toNat) extra core2 hlen
    · rw [drainFullChunks_stop p b core hg]

theorem processInputChunks_false_some (p : DetectorParams) (st : DState)
    (b : List ℚ) (hb : st.buffer = some b) :
    processInputChunks p false st =
      ({ buffer := some (drainFullChunks p b st.core).1
         core := (drainFullChunks p b st.core).2.1
         completes := st.completes }, (drainFullChunks p b st.core).2.2) := by
  unfold processInputChunks
  rw [hb]
  dsimp only
  rcases hd : drainFullChunks p b st.core with ⟨b2, core2, err⟩
  cases err with
  | some e => rfl
  | none => simp

theorem detect_eq (p : DetectorParams) (samples : List ℚ) (st : DState) :
    detect p samples st =
      ({ buffer :=
          some (drainFullChunks p (st.buffer.getD [] ++ samples) st.core).1
         core := (drainFullChunks p (st.buffer.getD [] ++ samples) st.core).2.1
         completes := st.completes },
        (drainFullChunks p (st.buffer.getD [] ++ samples) st.core).2.2) := by
  unfold detect
  exact processInputChunks_false_some p _ _ rfl

theorem detect_append (p : DetectorParams) (a c : List ℚ) (st : DState) :
    detect p (a ++ c) st =
      match detect p a st with
      | (st1, none) => detect p c st1
      | (st1, some e) =>
        ({ st1 with buffer := some (st1.buffer.getD [] ++ c) }, some e) := by
  rw [detect_eq p (a ++ c) st, detect_eq p a st]
  rw [show st.buffer.getD [] ++ (a ++ c) = (st.buffer.getD [] ++ a) ++ c from
    (List.append_assoc _ _ _).symm]
  rw [drainFullChunks_append p (st.buffer.getD [] ++ a).length
    (st.buffer.getD [] ++ a) c st.core (le_refl _)]
  rcases hd : drainFullChunks p (st.buffer.getD [] ++ a) st.core
    with ⟨b2, core2, err⟩
  cases err with
  | none =>
    dsimp only
    rw [detect_eq p c _]
    rfl
  | some e => rfl

theorem foldDetect_cons_flatten (p : DetectorParams) :
    ∀ (cs : List (List ℚ)) (c : List ℚ) (st : DState),
      (foldDetect p (c :: cs) st).1.core
          = (detect p (c ++ cs.flatten) st).1.core ∧
        (foldDetect p (c :: cs) st).2 = (detect p (c ++ cs.flatten) st).2 ∧
        (foldDetect p (c :: cs) st).1.completes
          = (detect p (c ++ cs.flatten) st).1.completes ∧
        ((foldDetect p (c :: cs) st).2 = none →
          (foldDetect p (c :: cs) st).1 = (detect p (c ++ cs.flatten) st).1) := by
  intro cs
  induction cs with
  | nil =>
    intro c st
    have h1 : foldDetect p [c] st = detect p c st := by
      rw [foldDetect_cons]
      rcases hd : detect p c st with ⟨st1, err⟩
      cases err with
      | none => rfl
      | some e => rfl
    have h2 : c ++ ([] : List (List ℚ)).flatten = c := by simp
    rw [h1, h2]
    exact ⟨rfl, rfl, rfl, fun _ => rfl⟩
  | cons c2 rest ih =>
    intro c st
    rw [foldDetect_cons]
    have hfl : c ++ (c2 :: rest).flatten = c ++ (c2 ++ rest.flatten) := by
      simp
    rw [hfl, detect_append p c (c2 ++ rest.flatten) st]
    rcases hd : detect p c st with ⟨st1, err⟩
    cases err with
    | none =>
      dsimp only
      exact ih c2 st1
    | some e =>
      dsimp only
      exact ⟨rfl, rfl, rfl, fun h => absurd h (by simp)⟩

theorem runDetector_flat (p : DetectorParams) (calls : List (List ℚ))
    (h : calls ≠ []) :
    (runDetector p calls).1.core.emitted
      = (runFromFlat p calls.flatten).1.core.emitted := by
  rcases calls with _ | ⟨c, cs⟩
  · exact absurd rfl h
  · obtain ⟨hcore, herr, hcomp, hfull⟩ := foldDetect_cons_flatten p cs c initState
    unfold runDetector runFromFlat
    rw [List.flatten_cons]
    rcases hf : foldDetect p (c :: cs) initState with ⟨stf, errf⟩
    rcases hd : detect p (c ++ cs.flatten) initState with ⟨std, errd⟩
    rw [hf, hd] at hcore herr hcomp hfull
    dsimp only at hcore herr hcomp hfull
    cases errf with
    | none =>
      rw [← herr]
      dsimp only
      rw [hfull rfl]
    | some e =>
      rw [← herr]
      dsimp only
      rw [hcore]

/-! ### Peak-separation facts -/

theorem pickBest_mem (scores : List ℚ) :
    ∀ (cands : List ℕ) (b : ℕ), pickBest scores cands = some b → b ∈ cands := by
  intro cands
  induction cands with
  | nil =>
    intro b h
    exact absurd h (by simp [pickBest])
  | cons c cs ih =>
    intro b h
    rw [pickBest] at h
    rcases hp : pickBest scores cs with _ | b2
    · rw [hp] at h
      dsimp only at h
      cases h
      exact List.mem_cons_self _ _
    · rw [hp] at h
      dsimp only at h
      split at h
      · cases h
        exact List.mem_cons_of_mem _ (ih _ hp)
      · cases h
        exact List.mem_cons_self _ _

theorem selectPeaks_subset (scores : List ℚ) (m : ℚ) :
    ∀ (fuel : ℕ) (cands : List ℕ) (i : ℕ),
      i ∈ selectPeaks scores m fuel cands → i ∈ cands := by
  intro fuel
  induction fuel with
  | zero =>
    intro cands i h
    exact absurd h (by simp [selectPeaks])
  | succ fuel ih =>
    intro cands i h
    rw [selectPeaks] at h
    rcases hp : pickBest scores cands with _ | b
    · rw [hp] at h
      exact absurd h (by simp)
    · rw [hp] at h
      dsimp only at h
      rcases List.mem_cons.mp h with h | h
      · subst h
        exact pickBest_mem scores cands i hp
      · exact List.mem_of_mem_filter (ih _ i h)

theorem selectPeaks_sep (scores : List ℚ) (m : ℚ) :
    ∀ (fuel : ℕ) (cands : List ℕ) (i j : ℕ),
      i ∈ selectPeaks scores m fuel cands →
      j ∈ selectPeaks scores m fuel cands → i ≠ j →
      m ≤ |(i : ℚ) - (j : ℚ)| := by
  intro fuel
  induction fuel with
  | zero =>
    intro cands i j hi _ _
    exact absurd hi (by simp [selectPeaks])
  | succ fuel ih =>
    intro cands i j hi hj hne
    rw [selectPeaks] at hi hj
    rcases hp : pickBest scores cands with _ | b
    · rw [hp] at hi
      exact absurd hi (by simp)
    · rw [hp] at hi hj
      dsimp only at hi hj
      have hfil : ∀ x : ℕ,
          x ∈ selectPeaks scores m fuel
            (cands.filter (fun c =>
              decide (c ≠ b) && decide (m ≤ |(c : ℚ) - (b : ℚ)|))) →
          x ≠ b ∧ m ≤ |(x : ℚ) - (b : ℚ)| := by
        intro x hx
        have := selectPeaks_subset scores m fuel _ x hx
        have := List.of_mem_filter this
        rw [Bool.and_eq_true, decide_eq_true_eq, decide_eq_true_eq] at this
        exact this
      rcases List.mem_cons.mp hi with hi2 | hi2
      · rcases List.mem_cons.mp hj with hj2 | hj2
        · subst hi2 hj2
          exact absurd rfl hne
        · subst hi2
          have := (hfil j hj2).2
          rwa [abs_sub_comm] at this
      · rcases List.mem_cons.mp hj with hj2 | hj2
        · subst hj2
          exact (hfil i hi2).2
        · exact ih _ i j hi2 hj2 hne

theorem mem_insertAsc (x : ℕ) :
    ∀ (l : List ℕ) (y : ℕ), y ∈ insertAsc x l ↔ y = x ∨ y ∈ l := by
  intro l
  induction l with
  | nil =>
    intro y
    simp [insertAsc]
  | cons z zs ih =>
    intro y
    rw [insertAsc]
    split
    · simp
    · rw [List.mem_cons, ih y, List.mem_cons]
      tauto

theorem mem_sortAsc :
    ∀ (l : List ℕ) (y : ℕ), y ∈ sortAsc l ↔ y ∈ l := by
  intro l
  induction l with
  | nil =>
    intro y
    simp [sortAsc]
  | cons z zs ih =>
    intro y
    rw [sortAsc, mem_insertAsc, ih y, List.mem_cons]

theorem findPeaks_sep (scores : List ℚ) (t m : ℚ) (i j : ℕ)
    (hi : i ∈ findPeaks scores t (some m))
    (hj : j ∈ findPeaks scores t (some m)) (hne : i ≠ j) :
    m ≤ |(i : ℚ) - (j : ℚ)| := by
  unfold findPeaks at hi hj
  dsimp only at hi hj
  rw [mem_sortAsc] at hi hj
  exact selectPeaks_sep scores m _ _ i j hi hj hne

/-! ### Short-input facts -/

theorem findPeaks_nil (t : ℚ) (minSep : Option ℚ) :
    findPeaks [] t minSep = [] := by
  cases minSep <;> rfl

theorem chunkScores_nil (p : DetectorParams) (chunk : List ℚ)
    (h : ((effectiveSamples p chunk).length : ℤ) < p.classifierWaveformLength) :
    chunkScores p chunk = [] := by
  unfold chunkScores analysisRecords numRecordsVal
  rw [if_pos h]
  rfl

theorem chunkStep_short (p : DetectorParams) (chunk : List ℚ)
    (core : CoreState)
    (h : ((effectiveSamples p chunk).length : ℤ) < p.classifierWaveformLength) :
    chunkStep p chunk core =
      { core with
          inputChunkStartIndex := core.inputChunkStartIndex + chunk.length } := by
  have hfold : chunkStepCore p chunk core = core := by
    unfold chunkStepCore
    have hsc := chunkScores_nil p chunk h
    have : ∀ (ts : List ℚ) (c0 : CoreState),
        ts.foldl
          (fun c t =>
            notifyListenerOfClips p
              (detectorFindPeaks p (chunkScores p chunk) t) chunk.length t c)
          c0 = c0 := by
      intro ts
      induction ts with
      | nil => intro c0; rfl
      | cons t rest ih =>
        intro c0
        rw [List.foldl_cons]
        have hfp : detectorFindPeaks p (chunkScores p chunk) t = [] := by
          unfold detectorFindPeaks
          rw [hsc, findPeaks_nil]
        rw [hfp]
        have hnot : notifyListenerOfClips p [] chunk.length t c0 = c0 := rfl
        rw [hnot]
        exact ih c0
    exact this p.thresholds core
  unfold chunkStep
  rw [hfold]

theorem getNumAnalysisRecords_valid (n : ℕ) (r h : ℤ) (h1 : 0 < h)
    (h2 : h ≤ r) :
    getNumAnalysisRecords n r h = .ok (numRecordsVal n r h) := by
  unfold getNumAnalysisRecords
  rw [if_neg (by omega), if_neg (by omega), if_neg (by omega)]

theorem processInputChunk_valid (p : DetectorParams) (chunk : List ℚ)
    (core : CoreState) (hv : ValidWindowing p) :
    processInputChunk p chunk core = .ok (chunkStep p chunk core) := by
  unfold processInputChunk
  rw [getNumAnalysisRecords_valid _ _ _ hv.1 hv.2]

theorem processInputChunk_invalid (p : DetectorParams) (chunk : List ℚ)
    (core : CoreState) (hv : ¬ValidWindowing p) :
    ∃ e, processInputChunk p chunk core = .error e := by
  unfold processInputChunk getNumAnalysisRecords
  unfold ValidWindowing at hv
  by_cases h1 : p.classifierWaveformLength ≤ 0
  · rw [if_pos h1]
    exact ⟨_, rfl⟩
  · rw [if_neg h1]
    by_cases h2 : p.hopSize ≤ 0
    · rw [if_pos h2]
      exact ⟨_, rfl⟩
    · rw [if_neg h2]
      have h3 : p.classifierWaveformLength < p.hopSize := by omega
      rw [if_pos h3]
      exact ⟨_, rfl⟩

theorem drainAux_short (p : DetectorParams) (T : ℕ) (hv : ValidWindowing p)
    (hs : ShortFor p T) :
    ∀ (fuel : ℕ) (b : List ℚ) (core : CoreState), b.length ≤ fuel →
      core.inputChunkStartIndex + b.length ≤ T → core.emitted = [] →
      (drainAux p fuel b core).2.2 = none ∧
        (drainAux p fuel b core).2.1.emitted = [] ∧
        (drainAux p fuel b core).2.1.inputChunkStartIndex
            + (drainAux p fuel b core).1.length
          = core.inputChunkStartIndex + b.length := by
  intro fuel
  induction fuel with
  | zero =>
    intro b core hb hT he
    have hb0 : b = [] := List.length_eq_zero.mp (Nat.le_zero.mp hb)
    subst hb0
    exact ⟨rfl, he, rfl⟩
  | succ fuel ih =>
    intro b core hb hT he
    rw [drainAux]
    split
    · rename_i hg
      have hC1 : 1 ≤ p.inputChunkSize.toNat := by
        have := hg.1
        omega
      have hCb : p.inputChunkSize.toNat ≤ b.length := by
        have := hg.2
        omega
      have htake : (b.take p.inputChunkSize.toNat).length
          = p.inputChunkSize.toNat := by
        simp [hCb]
      have hshort : ((effectiveSamples p (b.take p.inputChunkSize.toNat)).length
          : ℤ) < p.classifierWaveformLength := by
        apply hs
        rw [htake]
        omega
      rw [processInputChunk_valid p _ core hv]
      dsimp only
      rw [chunkStep_short p _ core hshort]
      have hdlen : (b.drop p.inputChunkSize.toNat).length
          = b.length - p.inputChunkSize.toNat := by
        simp only [List.length_drop]
      obtain ⟨i1, i2, i3⟩ := ih (b.drop p.inputChunkSize.toNat)
        { core with
            inputChunkStartIndex :=
              core.inputChunkStartIndex + (b.take p.inputChunkSize.toNat).length }
        (by omega) (by dsimp only; rw [htake]; omega) he
      refine ⟨i1, i2, ?_⟩
      rw [i3]
      dsimp only
      rw [htake, hdlen]
      omega
    · exact ⟨rfl, he, rfl⟩

theorem detect_short (p : DetectorParams) (T : ℕ) (hv : ValidWindowing p)
    (hs : ShortFor p T) (samples : List ℚ) (st : DState)
    (hT : st.core.inputChunkStartIndex + bufLen st + samples.length ≤ T)
    (he : st.core.emitted = []) :
    (detect p samples st).2 = none ∧
      (detect p samples st).1.core.emitted = [] ∧
      (detect p samples st).1.core.inputChunkStartIndex
          + bufLen (detect p samples st).1
        = st.core.inputChunkStartIndex + bufLen st + samples.length ∧
      (detect p samples st).1.completes = st.completes ∧
      (detect p samples st).1.buffer ≠ none := by
  rw [detect_eq]
  have hlen : (st.buffer.getD [] ++ samples).length
      = bufLen st + samples.length := by
    simp [bufLen]
  obtain ⟨i1, i2, i3⟩ := drainAux_short p T hv hs
    (st.buffer.getD [] ++ samples).length (st.buffer.getD [] ++ samples)
    st.core (le_refl _) (by omega) he
  have hbl : bufLen
      { buffer :=
          some (drainFullChunks p (st.buffer.getD [] ++ samples) st.core).1
        core := (drainFullChunks p (st.buffer.getD [] ++ samples) st.core).2.1
        completes := st.completes }
      = (drainFullChunks p (st.buffer.getD [] ++ samples) st.core).1.length :=
    rfl
  refine ⟨i1, i2, ?_, rfl, by simp⟩
  rw [hbl]
  unfold drainFullChunks
  rw [i3 ]
  omega

theorem foldDetect_short (p : DetectorParams) (T : ℕ) (hv : ValidWindowing p)
    (hs : ShortFor p T) :
    ∀ (calls : List (List ℚ)) (st : DState),
      st.core.inputChunkStartIndex + bufLen st + (calls.flatten).length ≤ T →
      st.core.emitted = [] →
      (foldDetect p calls st).2 = none ∧
        (foldDetect p calls st).1.core.emitted = [] ∧
        (foldDetect p calls st).1.core.inputChunkStartIndex
            + bufLen (foldDetect p calls st).1
          = st.core.inputChunkStartIndex + bufLen st
              + (calls.flatten).length ∧
        (foldDetect p calls st).1.completes = st.completes ∧
        (calls = [] → foldDetect p calls st = (st, none)) ∧
        (calls ≠ [] → (foldDetect p calls st).1.buffer ≠ none) := by
  intro calls
  induction calls with
  | nil =>
    intro st hT he
    refine ⟨rfl, he, by simp [foldDetect], rfl, fun _ => rfl,
      fun h => absurd rfl h⟩
  | cons c cs ih =>
    intro st hT he
    rw [foldDetect_cons]
    have hTc : st.core.inputChunkStartIndex + bufLen st + c.length ≤ T := by
      simp only [List.flatten_cons, List.length_append] at hT
      omega
    obtain ⟨d1, d2, d3, d4, d5⟩ := detect_short p T hv hs c st hTc he
    rcases hd : detect p c st with ⟨st1, err⟩
    rw [hd] at d1 d2 d3 d4 d5
    dsimp only at d1 d2 d3 d4 d5
    subst d1
    dsimp only
    obtain ⟨i1, i2, i3, i4, i5, i6⟩ := ih st1
      (by simp only [List.flatten_cons, List.length_append] at hT; omega) d2
    refine ⟨i1, i2, ?_, by rw [i4, d4], fun h => absurd h (by simp), ?_⟩
    · rw [i3, d3]
      simp only [List.flatten_cons, List.length_append]
      omega
    · intro _
      rcases hcs : cs with _ | ⟨c2, rest⟩
      · subst hcs
        rw [i5 rfl]
        exact d5
      · subst hcs
        exact i6 (fun h => List.noConfusion h)

theorem completeDetection_short (p : DetectorParams) (T : ℕ)
    (hv : ValidWindowing p) (hs : ShortFor p T) (st : DState) (b : List ℚ)
    (hb : st.buffer = some b)
    (hT : st.core.inputChunkStartIndex + bufLen st ≤ T)
    (he : st.core.emitted = []) :
    (completeDetection p st).2 = none ∧
      (completeDetection p st).1.core.emitted = [] ∧
      (completeDetection p st).1.completes = st.completes + 1 := by
  have hbl : bufLen st = b.length := by
    unfold bufLen
    rw [hb]
    rfl
  obtain ⟨i1, i2, i3⟩ := drainAux_short p T hv hs b.length b st.core
    (le_refl _) (by omega) he
  unfold completeDetection processInputChunks
  rw [hb]
  dsimp only
  rcases hd : drainFullChunks p b st.core with ⟨b2, core2, err⟩
  have hdr : drainAux p b.length b st.core = (b2, core2, err) := hd
  rw [hdr] at i1 i2 i3
  dsimp only at i1 i2 i3
  subst i1
  dsimp only
  by_cases hne : (true && !b2.isEmpty) = true
  · rw [if_pos hne]
    have hb2T : b2.length ≤ T := by omega
    have hshort := hs b2 hb2T
    rw [processInputChunk_valid p _ _ hv]
    dsimp only
    refine ⟨rfl, ?_, rfl⟩
    rw [chunkStep_short p _ _ hshort]
    exact i2
  · rw [if_neg hne]
    exact ⟨rfl, i2, rfl⟩

/-! ### Invalid-configuration facts -/

theorem drainFullChunks_invalid (p : DetectorParams) (b : List ℚ)
    (core : CoreState) (hv : ¬ValidWindowing p) :
    (drainFullChunks p b core).2.1 = core ∧
      ((drainFullChunks p b core).2.2 = none →
        (drainFullChunks p b core).1 = b ∧
          ¬(0 < p.inputChunkSize ∧ p.inputChunkSize ≤ (b.length : ℤ))) := by
  by_cases hg : 0 < p.inputChunkSize ∧ p.inputChunkSize ≤ (b.length : ℤ)
  · rw [drainFullChunks_step p b core hg]
    obtain ⟨e, he⟩ := processInputChunk_invalid p
      (b.take p.inputChunkSize.toNat) core hv
    rw [he]
    exact ⟨rfl, fun h => absurd h (by simp)⟩
  · rw [drainFullChunks_stop p b core hg]
    exact ⟨rfl, fun _ => ⟨rfl, hg⟩⟩

theorem detect_invalid (p : DetectorParams) (samples : List ℚ) (st : DState)
    (hv : ¬ValidWindowing p) :
    (detect p samples st).1.core = st.core ∧
      (detect p samples st).1.completes = st.completes ∧
      ((detect p samples st).2 = none →
        (detect p samples st).1.buffer
          = some (st.buffer.getD [] ++ samples)) := by
  rw [detect_eq]
  obtain ⟨h1, h2⟩ := drainFullChunks_invalid p
    (st.buffer.getD [] ++ samples) st.core hv
  refine ⟨h1, rfl, ?_⟩
  intro h
  rw [(h2 h).1]

theorem foldDetect_invalid (p : DetectorParams) (hv : ¬ValidWindowing p) :
    ∀ (calls : List (List ℚ)) (st : DState),
      (foldDetect p calls st).1.core = st.core ∧
        (foldDetect p calls st).1.completes = st.completes ∧
        ((foldDetect p calls st).2 = none →
          (foldDetect p calls st).1.buffer.getD []
            = st.buffer.getD [] ++ calls.flatten) := by
  intro calls
  induction calls with
  | nil =>
    intro st
    exact ⟨rfl, rfl, fun _ => by simp [foldDetect]⟩
  | cons c cs ih =>
    intro st
    rw [foldDetect_cons]
    obtain ⟨d1, d2, d3⟩ := detect_invalid p c st hv
    rcases hd : detect p c st with ⟨st1, err⟩
    rw [hd] at d1 d2 d3
    dsimp only at d1 d2 d3
    cases err with
    | some e =>
      dsimp only
      exact ⟨d1, d2, fun h => absurd h (by simp)⟩
    | none =>
      dsimp only
      obtain ⟨i1, i2, i3⟩ := ih st1
      refine ⟨by rw [i1, d1], by rw [i2, d2], ?_⟩
      intro h
      rw [i3 h, d3 rfl]
      simp

theorem completeDetection_invalid (p : DetectorParams) (st : DState)
    (b : List ℚ) (hb : st.buffer = some b) (hne : b ≠ [])
    (hv : ¬ValidWindowing p) :
    (completeDetection p st).2 ≠ none ∧
      (completeDetection p st).1.completes = st.completes ∧
      (completeDetection p st).1.core = st.core := by
  unfold completeDetection processInputChunks
  rw [hb]
  dsimp only
  by_cases hg : 0 < p.inputChunkSize ∧ p.inputChunkSize ≤ (b.length : ℤ)
  · rw [drainFullChunks_step p b st.core hg]
    obtain ⟨e, he⟩ := processInputChunk_invalid p
      (b.take p.inputChunkSize.toNat) st.core hv
    rw [he]
    dsimp only
    exact ⟨by simp, rfl, rfl⟩
  · rw [drainFullChunks_stop p b st.core hg]
    dsimp only
    have hbe : (true && !b.isEmpty) = true := by
      simp
      exact hne
    rw [if_pos hbe]
    obtain ⟨e, he⟩ := processInputChunk_invalid p b st.core hv
    rw [he]
    dsimp only
    exact ⟨by simp, rfl, rfl⟩

theorem runDetector_invalid (p : DetectorParams) (calls : List (List ℚ))
    (hv : ¬ValidWindowing p) (hne : calls.flatten ≠ []) :
    (runDetector p calls).2 ≠ none ∧
      (runDetector p calls).1.core.emitted = [] ∧
      (runDetector p calls).1.completes = 0 := by
  unfold runDetector
  obtain ⟨f1, f2, f3⟩ := foldDetect_invalid p hv calls initState
  rcases hf : foldDetect p calls initState with ⟨st, err⟩
  rw [hf] at f1 f2 f3
  dsimp only at f1 f2 f3
  cases err with
  | some e =>
    dsimp only
    refine ⟨by simp, by rw [f1]; rfl, by rw [f2]; rfl⟩
  | none =>
    dsimp only
    have hbuf : st.buffer.getD [] = calls.flatten := by
      have := f3 rfl
      simpa [initState] using this
    have hsome : st.buffer = some calls.flatten := by
      rcases hb2 : st.buffer with _ | b
      · rw [hb2] at hbuf
        exact absurd hbuf.symm hne
      · rw [hb2] at hbuf
        have hbb : b = calls.flatten := by simpa using hbuf
        rw [hbb]
    obtain ⟨c1, c2, c3⟩ := completeDetection_invalid p st calls.flatten
      hsome hne hv
    refine ⟨c1, ?_, ?_⟩
    · rw [c3, f1]
      rfl
    · rw [c2, f2]
      rfl

/-! ### The claims -/

/-- C1. Fragmentation invariance: for any two ways of splitting the same
sample stream into `detect` calls followed by `complete_detection`, the
multiset of emitted `(start_index, length, threshold)` clips is
identical. The proof shows the stronger fact that the emitted clip lists
are equal outright — the detector's chunking depends only on the
concatenated stream, never on the call boundaries — so the claim holds
without needing its proviso about splits near events. -/
theorem claim1_fragmentation_invariance (p : DetectorParams)
    (calls1 calls2 : List (List ℚ))
    (h : calls1.flatten = calls2.flatten) :
    ((runDetector p calls1).1.core.emitted : Multiset Clip)
      = ((runDetector p calls2).1.core.emitted : Multiset Clip) := by
  suffices hl : (runDetector p calls1).1.core.emitted
      = (runDetector p calls2).1.core.emitted by
    rw [hl]
  rcases hc1 : calls1 with _ | ⟨c1, cs1⟩
  · rcases hc2 : calls2 with _ | ⟨c2, cs2⟩
    · rfl
    · rw [hc1, hc2] at h
      rw [runDetector_flat p (c2 :: cs2) (fun hx => List.noConfusion hx)]
      rw [← h]
      rfl
  · rcases hc2 : calls2 with _ | ⟨c2, cs2⟩
    · rw [hc1, hc2] at h
      rw [runDetector_flat p (c1 :: cs1) (fun hx => List.noConfusion hx)]
      rw [h]
      rfl
    · rw [runDetector_flat p (c1 :: cs1) (fun hx => List.noConfusion hx),
        runDetector_flat p (c2 :: cs2) (fun hx => List.noConfusion hx)]
      rw [hc1, hc2] at h
      rw [h]

/-- C1 witness: two concrete fragmentations of the same ten-sample
stream produce the same emitted clips. -/
theorem claim1_witness :
    ([[(0 : ℚ), 0], [0, 7, 0], [0, 0, 0, 0, 0]] : List (List ℚ)).flatten
        = ([[(0 : ℚ), 0, 0, 7, 0, 0, 0, 0, 0, 0]] : List (List ℚ)).flatten ∧
      ((runDetector simpleParams
          [[(0 : ℚ), 0], [0, 7, 0], [0, 0, 0, 0, 0]]).1.core.emitted
            : Multiset Clip)
        = ((runDetector simpleParams
            [[(0 : ℚ), 0, 0, 7, 0, 0, 0, 0, 0, 0]]).1.core.emitted
              : Multiset Clip) :=
  ⟨by decide, claim1_fragmentation_invariance simpleParams _ _ (by decide)⟩

/-- C2. Every clip passed to `listener.process_clip` has
`start_index ≥ 0`, and `start_index + length` does not exceed the end
index of the chunk being processed at the time of emission (first
conjunct) and hence never exceeds the total number of samples supplied
to the detector (second conjunct). -/
theorem claim2_clip_bounds :
    (∀ (p : DetectorParams) (chunk : List ℚ) (core : CoreState),
      ∀ c ∈ (chunkStep p chunk core).emitted,
        c ∈ core.emitted ∨
          (0 ≤ c.startIndex ∧
            c.startIndex + c.length ≤
              (core.inputChunkStartIndex : ℤ) + (chunk.length : ℤ))) ∧
    ∀ (p : DetectorParams) (calls : List (List ℚ)),
      ∀ c ∈ (runDetector p calls).1.core.emitted,
        0 ≤ c.startIndex ∧
          c.startIndex + c.length ≤ ((calls.flatten).length : ℤ) := by
  refine ⟨chunkStep_emitted, ?_⟩
  intro p calls c hc
  obtain ⟨r1, r2, -, -⟩ := runDetector_main p calls
  obtain ⟨h1, h2⟩ := r1 c hc
  refine ⟨h1, le_trans h2 ?_⟩
  exact_mod_cast r2

/-- C2 witness: the clip emitted by the concrete detector on one
ten-sample stream satisfies both bounds. -/
theorem claim2_witness :
    0 ≤ (⟨3, 1, 1/2⟩ : Clip).startIndex ∧
      (⟨3, 1, 1/2⟩ : Clip).startIndex + (⟨3, 1, 1/2⟩ : Clip).length
        ≤ ((([[(0 : ℚ), 0, 0, 7, 0, 0, 0, 0, 0, 0]] :
            List (List ℚ)).flatten).length : ℤ) :=
  claim2_clip_bounds.2 simpleParams
    [[(0 : ℚ), 0, 0, 7, 0, 0, 0, 0, 0, 0]] ⟨3, 1, 1/2⟩ (by decide)

/-- C3. `_notify_listener_of_clips` is fully characterized by a total
function: each peak's clip candidate is emitted exactly when
`clip_start_index ≥ 0` and `clip_end_index` does not exceed the current
chunk's end index (the two conditions of `clipFromPeak`), each rejected
candidate adds one warning instead, no peak aborts the loop, and the
chunk start index is untouched. -/
theorem claim3_rejection_characterization (p : DetectorParams)
    (peaks : List ℕ) (inputLength : ℕ) (t : ℚ) (core : CoreState) :
    notifyListenerOfClips p peaks inputLength t core =
      { inputChunkStartIndex := core.inputChunkStartIndex
        emitted := core.emitted ++ peaks.filterMap
          (clipFromPeak p ((core.inputChunkStartIndex : ℤ) + p.clipStartOffset)
            ((core.inputChunkStartIndex : ℤ) + (inputLength : ℤ)) t)
        warnings := core.warnings + peaks.countP
          (fun pk =>
            (clipFromPeak p
              ((core.inputChunkStartIndex : ℤ) + p.clipStartOffset)
              ((core.inputChunkStartIndex : ℤ) + (inputLength : ℤ)) t
              pk).isNone) } :=
  notifyListenerOfClips_spec p peaks inputLength t core

/-- C4. `_get_num_analysis_records` errors exactly when
`record_size ≤ 0`, `hop_size ≤ 0`, or `hop_size > record_size`; on valid
parameters it returns `0` windows when `n < record_size` and
`(n - (record_size - hop_size)) // hop_size` otherwise. -/
theorem claim4_windowing_count (n : ℕ) (r h : ℤ) :
    ((0 < r ∧ 0 < h ∧ h ≤ r) →
      getNumAnalysisRecords n r h =
        .ok (if (n : ℤ) < r then 0
          else ((n : ℤ) - (r - h)).toNat / h.toNat)) ∧
    (¬(0 < r ∧ 0 < h ∧ h ≤ r) →
      ∃ e, getNumAnalysisRecords n r h = .error e) := by
  constructor
  · intro hv
    rw [getNumAnalysisRecords_valid n r h hv.2.1 hv.2.2]
    rfl
  · intro hn
    unfold getNumAnalysisRecords
    by_cases c1 : r ≤ 0
    · rw [if_pos c1]
      exact ⟨_, rfl⟩
    · rw [if_neg c1]
      by_cases c2 : h ≤ 0
      · rw [if_pos c2]
        exact ⟨_, rfl⟩
      · rw [if_neg c2]
        have c3 : r < h := by omega
        rw [if_pos c3]
        exact ⟨_, rfl⟩

/-- C4 witness: 25 samples with record size 10 and hop 5 give 4 windows,
and swapped parameters (hop 10 > record 5) give an error. -/
theorem claim4_witness :
    getNumAnalysisRecords 25 10 5 = .ok 4 ∧
      ∃ e, getNumAnalysisRecords 25 5 10 = .error e := by
  constructor
  · have h := (claim4_windowing_count 25 10 5).1 (by norm_num)
    rw [h]
    rfl
  · exact (claim4_windowing_count 25 5 10).2 (by norm_num)

/-- C5 counterexample: a detector that receives zero `detect` calls has
`_input_buffer = None`, so `complete_detection` raises (`len(None)`)
instead of emitting zero clips and calling `complete_processing` once;
the completion hook never runs. -/
theorem claim5_counterexample :
    (runDetector simpleParams []).2 ≠ none ∧
      (runDetector simpleParams []).1.completes = 0 ∧
      (runDetector simpleParams []).1.core.emitted = [] := by
  refine ⟨?_, rfl, rfl⟩
  intro h
  exact Option.noConfusion h

/-- C5 amended: provided at least one `detect` call is made (possibly
with an empty array) and every chunk the detector can form from the
stream is shorter than one analysis record after the resampling step —
which, when the classifier rate equals the input rate, is exactly
"fewer than `record_length` samples in total" — the session completes
without error, emits zero clips, and calls `complete_processing` exactly
once. With zero `detect` calls, `complete_detection` instead fails on
the uninitialized buffer. -/
theorem claim5_amended (p : DetectorParams) (calls : List (List ℚ))
    (hv : ValidWindowing p) (hne : calls ≠ [])
    (hs : ShortFor p (calls.flatten).length) :
    (runDetector p calls).2 = none ∧
      (runDetector p calls).1.core.emitted = [] ∧
      (runDetector p calls).1.completes = 1 := by
  unfold runDetector
  obtain ⟨f1, f2, f3, f4, f5, f6⟩ :=
    foldDetect_short p (calls.flatten).length hv hs calls initState
      (by simp [initState, bufLen]) rfl
  rcases hf : foldDetect p calls initState with ⟨st, err⟩
  rw [hf] at f1 f2 f3 f4 f6
  dsimp only at f1 f2 f3 f4 f6
  subst f1
  dsimp only
  have hbufne := f6 hne
  rcases hb : st.buffer with _ | b
  · exact absurd hb hbufne
  · have hT : st.core.inputChunkStartIndex + bufLen st
        ≤ (calls.flatten).length := by
      have h0 : initState.core.inputChunkStartIndex = 0 := rfl
      have h0b : bufLen initState = 0 := rfl
      omega
    obtain ⟨c1, c2, c3⟩ :=
      completeDetection_short p (calls.flatten).length hv hs st b hb hT f2
    refine ⟨c1, c2, ?_⟩
    rw [c3, f4]
    rfl

/-- C5 witness: one `detect` call with two samples against record length
3 (equal rates) emits nothing and completes exactly once. -/
theorem claim5_witness :
    (runDetector shortParams [[(1 : ℚ), 2]]).2 = none ∧
      (runDetector shortParams [[(1 : ℚ), 2]]).1.core.emitted = [] ∧
      (runDetector shortParams [[(1 : ℚ), 2]]).1.completes = 1 :=
  claim5_amended shortParams [[(1 : ℚ), 2]] (by constructor <;> decide)
    (fun h => List.noConfusion h)
    (by
      intro chunk hlen
      unfold effectiveSamples
      rw [if_neg (by decide)]
      have : ([[(1 : ℚ), 2]] : List (List ℚ)).flatten.length = 2 := by decide
      rw [this] at hlen
      have : shortParams.classifierWaveformLength = 3 := rfl
      omega)

/-- C6 counterexample: with chunk size 4, a first `detect` call of three
samples triggers nothing; a second call writing only two samples
completes a chunk, and the stream position advances by 4, not by the 2
samples written on that call. -/
theorem claim6_counterexample :
    (detect monoParams [0, 0, 0] initState).1.core.inputChunkStartIndex
        = 0 ∧
      (detect monoParams [0, 0]
          (detect monoParams [0, 0, 0] initState).1).1.core.inputChunkStartIndex
        = 4 ∧
      ([(0 : ℚ), 0].length = 2) ∧ (4 : ℕ) ≠ 2 := by
  refine ⟨by decide, by decide, by decide, by decide⟩

/-- C6 amended: the chunk start index never decreases across `detect`
calls, and on a call that returns normally it advances by exactly the
number of samples consumed from the buffer: new position plus new buffer
content equals old position plus old buffer content plus the samples
written (a whole number of chunks is consumed, so the advance is a
multiple of the chunk size, not the written count). -/
theorem claim6_amended (p : DetectorParams) (samples : List ℚ)
    (st : DState) :
    st.core.inputChunkStartIndex
        ≤ (detect p samples st).1.core.inputChunkStartIndex ∧
      ((detect p samples st).2 = none →
        (detect p samples st).1.core.inputChunkStartIndex
            + bufLen (detect p samples st).1
          = st.core.inputChunkStartIndex + bufLen st + samples.length) := by
  obtain ⟨e1, e2, e3, -, -, -, -⟩ := detect_main p samples st
  exact ⟨e1, e3⟩

/-- C6 witness: the amended bookkeeping at the counterexample's second
call — position 4 plus 1 buffered sample equals 0 plus 3 buffered plus 2
written. -/
theorem claim6_witness :
    (detect monoParams [0, 0] (detect monoParams [0, 0, 0] initState).1).1.core.inputChunkStartIndex
        + bufLen (detect monoParams [0, 0]
            (detect monoParams [0, 0, 0] initState).1).1
      = (detect monoParams [0, 0, 0] initState).1.core.inputChunkStartIndex
          + bufLen (detect monoParams [0, 0, 0] initState).1
          + [(0 : ℚ), 0].length :=
  (claim6_amended monoParams [0, 0]
    (detect monoParams [0, 0, 0] initState).1).2 (by decide)

/-- C7 counterexample: settings with hop percentage 200 produce a hop
size (2) exceeding the record size (1). Construction (`mkDetector`, the
model of `__init__`) is a total function and succeeds, and the error
surfaces only at runtime, when the first chunk is processed inside
`detect`. -/
theorem claim7_counterexample :
    (runDetector
        (mkDetector badSettings unitClassifierSettings 1 id (fun _ => 0)
          none)
        [[0, 0, 0, 0]]).2 ≠ none ∧
      (runDetector
          (mkDetector badSettings unitClassifierSettings 1 id (fun _ => 0)
            none)
          [[0, 0, 0, 0]]).1.completes = 0 := by
  refine ⟨?_, by decide⟩
  intro h
  revert h
  decide

/-- C7 amended: malformed windowing configuration is not detected at
construction (which cannot fail); instead, as soon as any nonempty input
has been supplied, the session fails at runtime — during `detect` or
`complete_detection` — with no clips emitted and no completion callback. -/
theorem claim7_amended (p : DetectorParams) (calls : List (List ℚ))
    (hv : ¬ValidWindowing p) (hne : calls.flatten ≠ []) :
    (runDetector p calls).2 ≠ none ∧
      (runDetector p calls).1.core.emitted = [] ∧
      (runDetector p calls).1.completes = 0 :=
  runDetector_invalid p calls hv hne

/-- C7 witness: the amended statement at the concrete malformed
configuration. -/
theorem claim7_witness :
    (runDetector
        (mkDetector badSettings unitClassifierSettings 1 id (fun _ => 0)
          none)
        [[(0 : ℚ), 0, 0, 0]]).2 ≠ none ∧
      (runDetector
          (mkDetector badSettings unitClassifierSettings 1 id (fun _ => 0)
            none)
          [[(0 : ℚ), 0, 0, 0]]).1.core.emitted = [] ∧
      (runDetector
          (mkDetector badSettings unitClassifierSettings 1 id (fun _ => 0)
            none)
          [[(0 : ℚ), 0, 0, 0]]).1.completes = 0 :=
  claim7_amended _ _ (by intro h; exact absurd h.2 (by decide))
    (fun h => List.noConfusion h)

/-- C8 counterexample: after a completed session (`complete_processing`
already invoked once), a further `detect` call is not rejected: no error
of any kind is signalled — there is no `InvalidStateError` in the code —
and the call processes its samples normally, advancing the stream
position from 4 to 8. -/
theorem claim8_counterexample :
    (runDetector monoParams [[0, 0, 0, 0]]).2 = none ∧
      (runDetector monoParams [[0, 0, 0, 0]]).1.completes = 1 ∧
      (detect monoParams [0, 0, 0, 0]
          (runDetector monoParams [[0, 0, 0, 0]]).1).2 = none ∧
      (detect monoParams [0, 0, 0, 0]
          (runDetector monoParams [[0, 0, 0, 0]]).1).1.core.inputChunkStartIndex
        = 8 := by
  refine ⟨by decide, by decide, by decide, by decide⟩

/-- C8 amended: `detect` performs no state check whatsoever — its
behaviour depends only on the buffer and core state, never on whether
`complete_detection` has already run, and it never raises a state
error: two states agreeing on buffer and core produce identical `detect`
results, and the completion counter passes through untouched. -/
theorem claim8_amended (p : DetectorParams) (samples : List ℚ)
    (st1 st2 : DState) (hb : st1.buffer = st2.buffer)
    (hc : st1.core = st2.core) :
    (detect p samples st1).1.core = (detect p samples st2).1.core ∧
      (detect p samples st1).1.buffer = (detect p samples st2).1.buffer ∧
      (detect p samples st1).2 = (detect p samples st2).2 ∧
      (detect p samples st1).1.completes = st1.completes := by
  rw [detect_eq p samples st1, detect_eq p samples st2, hb, hc]
  exact ⟨rfl, rfl, rfl, rfl⟩

/-- C8 witness: a detector that has completed behaves on further input
exactly like the same detector with the completion flag cleared. -/
theorem claim8_witness :
    (detect monoParams [0, 0, 0, 0]
        (runDetector monoParams [[0, 0, 0, 0]]).1).1.core
      = (detect monoParams [0, 0, 0, 0]
          { (runDetector monoParams [[0, 0, 0, 0]]).1 with
              completes := 0 }).1.core ∧
      (detect monoParams [0, 0, 0, 0]
          (runDetector monoParams [[0, 0, 0, 0]]).1).1.buffer
        = (detect monoParams [0, 0, 0, 0]
            { (runDetector monoParams [[0, 0, 0, 0]]).1 with
                completes := 0 }).1.buffer ∧
      (detect monoParams [0, 0, 0, 0]
          (runDetector monoParams [[0, 0, 0, 0]]).1).2
        = (detect monoParams [0, 0, 0, 0]
            { (runDetector monoParams [[0, 0, 0, 0]]).1 with
                completes := 0 }).2 ∧
      (detect monoParams [0, 0, 0, 0]
          (runDetector monoParams [[0, 0, 0, 0]]).1).1.completes
        = (runDetector monoParams [[0, 0, 0, 0]]).1.completes :=
  claim8_amended monoParams [0, 0, 0, 0]
    (runDetector monoParams [[0, 0, 0, 0]]).1
    { (runDetector monoParams [[0, 0, 0, 0]]).1 with completes := 0 }
    rfl rfl

/-- C9 counterexample: with input rate 2000, classifier rate 10000, hop
2 and min separation 27/20000 s, one chunk of one session emits two
clips for the same threshold whose start indices (2 and 4) are 2 input
samples apart, although the configured separation converts to 2.7 input
samples exactly (and to 3 when rounded): the index conversion from the
classifier rate to the input rate rounds each start separately and can
lose up to one sample of separation. -/
theorem claim9_counterexample :
    (⟨2, 1, 1/2⟩ : Clip)
        ∈ (runDetector sepParams [List.replicate 10 0]).1.core.emitted ∧
      (⟨4, 1, 1/2⟩ : Clip)
        ∈ (runDetector sepParams [List.replicate 10 0]).1.core.emitted ∧
      (⟨2, 1, 1/2⟩ : Clip).threshold = (⟨4, 1, 1/2⟩ : Clip).threshold ∧
      (⟨2, 1, 1/2⟩ : Clip) ≠ (⟨4, 1, 1/2⟩ : Clip) ∧
      sepParams.minSeparation = some (27/20000) ∧
      |((⟨2, 1, 1/2⟩ : Clip).startIndex : ℚ)
          - ((⟨4, 1, 1/2⟩ : Clip).startIndex : ℚ)|
        < (27/20000 : ℚ) * sepParams.inputSampleRate ∧
      |((⟨2, 1, 1/2⟩ : Clip).startIndex : ℚ)
          - ((⟨4, 1, 1/2⟩ : Clip).startIndex : ℚ)|
        < (secondsToFrames (27/20000) sepParams.inputSampleRate : ℚ) := by
  refine ⟨by decide, by decide, by decide, by decide, by decide, by decide,
    by decide⟩

/-- C9 amended: within one chunk-processing step, two distinct clips
emitted for the same threshold have start indices at least
`min_separation · input_rate − 1` input samples apart: the separation of
the underlying peaks (the configured duration divided by the hop
duration, in windows) is exact, but the per-clip rounding of the
classifier-rate index to the input rate can cost strictly less than one
sample. When the two rates are equal the conversion is exact and the
full `min_separation · input_rate` bound holds. -/
theorem claim9_amended (p : DetectorParams) (scores : List ℚ) (t m : ℚ)
    (L : ℕ) (core : CoreState) (c1 c2 : Clip)
    (hm : p.minSeparation = some m) (hhop : 0 < p.hopSize)
    (hir : 0 < p.inputSampleRate) (hcr : 0 < p.classifierSampleRate)
    (h1 : c1 ∈ (notifyListenerOfClips p (detectorFindPeaks p scores t) L t
      core).emitted)
    (h1n : c1 ∉ core.emitted)
    (h2 : c2 ∈ (notifyListenerOfClips p (detectorFindPeaks p scores t) L t
      core).emitted)
    (h2n : c2 ∉ core.emitted) (hne : c1 ≠ c2) :
    m * p.inputSampleRate - 1
      ≤ |(c1.startIndex : ℚ) - (c2.startIndex : ℚ)| := by
  rw [notifyListenerOfClips_spec] at h1 h2
  dsimp only at h1 h2
  have h1m : c1 ∈ (detectorFindPeaks p scores t).filterMap
      (clipFromPeak p ((core.inputChunkStartIndex : ℤ) + p.clipStartOffset)
        ((core.inputChunkStartIndex : ℤ) + (L : ℤ)) t) := by
    rcases List.mem_append.mp h1 with h | h
    · exact absurd h h1n
    · exact h
  have h2m : c2 ∈ (detectorFindPeaks p scores t).filterMap
      (clipFromPeak p ((core.inputChunkStartIndex : ℤ) + p.clipStartOffset)
        ((core.inputChunkStartIndex : ℤ) + (L : ℤ)) t) := by
    rcases List.mem_append.mp h2 with h | h
    · exact absurd h h2n
    · exact h
  obtain ⟨pk1, hpk1m, hpk1⟩ := List.mem_filterMap.mp h1m
  obtain ⟨pk2, hpk2m, hpk2⟩ := List.mem_filterMap.mp h2m
  have hpkne : pk1 ≠ pk2 := by
    intro h
    subst h
    rw [hpk1] at hpk2
    exact hne (Option.some.inj hpk2)
  have hdfp : detectorFindPeaks p scores t =
      findPeaks scores t
        (some (m / getDuration p.hopSize p.classifierSampleRate)) := by
    unfold detectorFindPeaks
    rw [hm]
    rfl
  rw [hdfp] at hpk1m hpk2m
  have hsep := findPeaks_sep scores t _ pk1 pk2 hpk1m hpk2m hpkne
  obtain ⟨-, -, -, -, hs1⟩ := clipFromPeak_some p hpk1
  obtain ⟨-, -, -, -, hs2⟩ := clipFromPeak_some p hpk2
  have hc1 : (c1.startIndex : ℚ) =
      (pyRound (getDuration ((pk1 : ℤ) * p.hopSize) p.classifierSampleRate
          * p.inputSampleRate) : ℚ)
        + ((core.inputChunkStartIndex : ℚ) + (p.clipStartOffset : ℚ)) := by
    rw [hs1]
    unfold clipStartIndexOf secondsToFrames
    push_cast
    ring
  have hc2 : (c2.startIndex : ℚ) =
      (pyRound (getDuration ((pk2 : ℤ) * p.hopSize) p.classifierSampleRate
          * p.inputSampleRate) : ℚ)
        + ((core.inputChunkStartIndex : ℚ) + (p.clipStartOffset : ℚ)) := by
    rw [hs2]
    unfold clipStartIndexOf secondsToFrames
    push_cast
    ring
  have hb1 := pyRound_sub_le
    (getDuration ((pk1 : ℤ) * p.hopSize) p.classifierSampleRate
      * p.inputSampleRate)
  have hb2 := pyRound_sub_le
    (getDuration ((pk2 : ℤ) * p.hopSize) p.classifierSampleRate
      * p.inputSampleRate)
  have hfact : getDuration ((pk1 : ℤ) * p.hopSize) p.classifierSampleRate
        * p.inputSampleRate
      - getDuration ((pk2 : ℤ) * p.hopSize) p.classifierSampleRate
        * p.inputSampleRate
      = ((pk1 : ℚ) - (pk2 : ℚ))
        * ((p.hopSize : ℚ) * p.inputSampleRate / p.classifierSampleRate) := by
    unfold getDuration
    push_cast
    ring
  have hposf : (0 : ℚ) <
      (p.hopSize : ℚ) * p.inputSampleRate / p.classifierSampleRate := by
    apply div_pos
    · exact mul_pos (by exact_mod_cast hhop) hir
    · exact hcr
  have habs2 : |getDuration ((pk1 : ℤ) * p.hopSize) p.classifierSampleRate
        * p.inputSampleRate
      - getDuration ((pk2 : ℤ) * p.hopSize) p.classifierSampleRate
        * p.inputSampleRate|
      = |(pk1 : ℚ) - (pk2 : ℚ)|
        * ((p.hopSize : ℚ) * p.inputSampleRate / p.classifierSampleRate) := by
    rw [hfact, abs_mul, abs_of_pos hposf]
  have hm2 : (m / getDuration p.hopSize p.classifierSampleRate)
        * ((p.hopSize : ℚ) * p.inputSampleRate / p.classifierSampleRate)
      = m * p.inputSampleRate := by
    unfold getDuration
    have hh0 : (p.hopSize : ℚ) ≠ 0 := by
      exact_mod_cast ne_of_gt hhop
    have hc0 : p.classifierSampleRate ≠ 0 := ne_of_gt hcr
    field_simp
    ring
  have hmul := mul_le_mul_of_nonneg_right hsep (le_of_lt hposf)
  rw [hm2, ← habs2] at hmul
  have htri : |getDuration ((pk1 : ℤ) * p.hopSize) p.classifierSampleRate
        * p.inputSampleRate
      - getDuration ((pk2 : ℤ) * p.hopSize) p.classifierSampleRate
        * p.inputSampleRate|
      ≤ |(c1.startIndex : ℚ) - (c2.startIndex : ℚ)| + 1 := by
    have t1 := abs_sub_le
      (getDuration ((pk1 : ℤ) * p.hopSize) p.classifierSampleRate
        * p.inputSampleRate)
      ((pyRound (getDuration ((pk1 : ℤ) * p.hopSize) p.classifierSampleRate
        * p.inputSampleRate) : ℚ))
      (getDuration ((pk2 : ℤ) * p.hopSize) p.classifierSampleRate
        * p.inputSampleRate)
    have t2 := abs_sub_le
      ((pyRound (getDuration ((pk1 : ℤ) * p.hopSize) p.classifierSampleRate
        * p.inputSampleRate) : ℚ))
      ((pyRound (getDuration ((pk2 : ℤ) * p.hopSize) p.classifierSampleRate
        * p.inputSampleRate) : ℚ))
      (getDuration ((pk2 : ℤ) * p.hopSize) p.classifierSampleRate
        * p.inputSampleRate)
    have t3 : |getDuration ((pk1 : ℤ) * p.hopSize) p.classifierSampleRate
          * p.inputSampleRate
        - (pyRound (getDuration ((pk1 : ℤ) * p.hopSize)
            p.classifierSampleRate * p.inputSampleRate) : ℚ)| ≤ 1/2 := by
      rw [abs_sub_comm]
      exact hb1
    have t4 : |(pyRound (getDuration ((pk2 : ℤ) * p.hopSize)
          p.classifierSampleRate * p.inputSampleRate) : ℚ)
        - getDuration ((pk2 : ℤ) * p.hopSize) p.classifierSampleRate
          * p.inputSampleRate| ≤ 1/2 := hb2
    have hdq : (c1.startIndex : ℚ) - (c2.startIndex : ℚ)
        = (pyRound (getDuration ((pk1 : ℤ) * p.hopSize)
            p.classifierSampleRate * p.inputSampleRate) : ℚ)
          - (pyRound (getDuration ((pk2 : ℤ) * p.hopSize)
            p.classifierSampleRate * p.inputSampleRate) : ℚ) := by
      rw [hc1, hc2]
      ring
    rw [hdq]
    linarith
  linarith

/-- C9 witness for the amended bound: at the counterexample instance the
two start indices are 2 apart, and indeed 2 ≥ 2.7 − 1. -/
theorem claim9_witness :
    (27/20000 : ℚ) * sepParams.inputSampleRate - 1
      ≤ |(((⟨2, 1, 1/2⟩ : Clip)).startIndex : ℚ)
          - (((⟨4, 1, 1/2⟩ : Clip)).startIndex : ℚ)| :=
  claim9_amended sepParams sepScores (1/2) (27/20000) 10
    { inputChunkStartIndex := 0, emitted := [], warnings := 0 }
    ⟨2, 1, 1/2⟩ ⟨4, 1, 1/2⟩ rfl (by decide) (by decide) (by decide)
    (by decide) (by decide) (by decide) (by decide) (by decide)

/-- C10. `detect` always consumes every complete chunk before returning:
whenever a `detect` call on a detector with a positive chunk size
returns normally, strictly fewer than `input_chunk_size` samples remain
buffered. -/
theorem claim10_detect_drains (p : DetectorParams) (samples : List ℚ)
    (st : DState) (hC : 0 < p.inputChunkSize)
    (hok : (detect p samples st).2 = none) :
    (bufLen (detect p samples st).1 : ℤ) < p.inputChunkSize := by
  obtain ⟨-, -, -, e4, -, -, -⟩ := detect_main p samples st
  exact e4 hok hC

/-- C10 witness: after the counterexample's second call (5 buffered
samples, chunk size 4), exactly 1 sample remains, below the chunk size. -/
theorem claim10_witness :
    0 < monoParams.inputChunkSize ∧
      (bufLen (detect monoParams [0, 0]
          (detect monoParams [0, 0, 0] initState).1).1 : ℤ)
        < monoParams.inputChunkSize :=
  ⟨by decide,
    claim10_detect_drains monoParams [0, 0]
      (detect monoParams [0, 0, 0] initState).1 (by decide) (by decide)⟩

end Vesper
